import Mathlib

/-!
Shallow embedding of the mix-berry smoothie repository core:
the image-suggestion service (query building, limit clamping, cache lookup)
and the dataset ingestion-and-query engine (CSV tokenizer, loose record
parser, tag classifier, dataset builder, query engine).

Modelling conventions:
* JS strings are modelled as lists of characters (`JStr`).  JS string
  indices / `charCodeAt` are modelled on Unicode scalar values; all data
  relevant to the claims is in the basic multilingual plane, where the two
  coincide.
* `String.prototype.normalize("NFD")` followed by removal of combining
  diacritical marks is modelled by a character-level folding table covering
  the Latin repertoire used by the repository (accented vowels, cedilla,
  tilde) plus removal of free-standing combining marks.
* `toLowerCase` is modelled by `Char.toLower` (ASCII); diacritic folding
  runs first, so the inputs reaching it are ASCII for the claim-relevant
  repertoire.
* Node's `createHash("sha1")...digest("hex")` is modelled by the identity
  on the hashed payload: an injective stand-in for a collision-free hash.
* Network fetches, the file system and `Date.now()` are external effects;
  they are modelled as explicit oracle arguments / parameters.
* `JSON.parse` is modelled by a recursive-descent JSON parser
  (`jsonParse`); numeric `toString` is modelled by the numeric lexeme, and
  surrogate `\u` escapes are outside the model (Lean characters are
  Unicode scalar values).
-/

/-- JS strings are modelled as lists of characters. -/
abbrev JStr := List Char

/-- The double-quote character (written via its code point). -/
def quoteChar : Char := Char.ofNat 34

/-- The apostrophe character (written via its code point). -/
def aposChar : Char := Char.ofNat 39

/-- Membership of the JS regular-expression class `\s` (whitespace),
restricted to the code points the repository's data can contain. -/
def isJsSpace (c : Char) : Bool :=
  c = ' ' || c = '\t' || c = '\n' || c = '\r' || c = '\x0b' || c = '\x0c' ||
  c.toNat = 0xa0 || c.toNat = 0x1680 ||
  (0x2000 ≤ c.toNat && c.toNat ≤ 0x200a) ||
  c.toNat = 0x2028 || c.toNat = 0x2029 || c.toNat = 0x202f ||
  c.toNat = 0x205f || c.toNat = 0x3000 || c.toNat = 0xfeff

/-- JS `String.prototype.trim()`. -/
def jsTrim (cs : JStr) : JStr :=
  ((cs.dropWhile isJsSpace).reverse.dropWhile isJsSpace).reverse

/-- Replace every maximal run of characters satisfying `p` by the single
character `r` (models `replace(/X+/g, "r")` for a character class `X`). -/
def collapseRunsAux (p : Char → Bool) (r : Char) : Bool → JStr → JStr
  | _, [] => []
  | inRun, c :: rest =>
    if p c then
      if inRun then collapseRunsAux p r true rest
      else r :: collapseRunsAux p r true rest
    else c :: collapseRunsAux p r false rest

/-- Replace every maximal run of characters satisfying `p` by `r`. -/
def collapseRuns (p : Char → Bool) (r : Char) (cs : JStr) : JStr :=
  collapseRunsAux p r false cs

/-- Model of `normalize("NFD")` followed by
`replace(/[̀-ͯ]/g, "")` at the level of one character:
a precomposed Latin letter decomposes to its base letter (the combining
mark being removed), a free-standing combining mark is removed, and every
other character is kept. -/
def foldChar (c : Char) : List Char :=
  if 0x300 ≤ c.toNat && c.toNat ≤ 0x36f then []
  else if c = 'à' || c = 'á' || c = 'â' || c = 'ã' || c = 'ä' || c = 'å' then ['a']
  else if c = 'è' || c = 'é' || c = 'ê' || c = 'ë' then ['e']
  else if c = 'ì' || c = 'í' || c = 'î' || c = 'ï' then ['i']
  else if c = 'ò' || c = 'ó' || c = 'ô' || c = 'õ' || c = 'ö' then ['o']
  else if c = 'ù' || c = 'ú' || c = 'û' || c = 'ü' then ['u']
  else if c = 'ç' then ['c']
  else if c = 'ñ' then ['n']
  else if c = 'ý' || c = 'ÿ' then ['y']
  else if c = 'À' || c = 'Á' || c = 'Â' || c = 'Ã' || c = 'Ä' || c = 'Å' then ['A']
  else if c = 'È' || c = 'É' || c = 'Ê' || c = 'Ë' then ['E']
  else if c = 'Ì' || c = 'Í' || c = 'Î' || c = 'Ï' then ['I']
  else if c = 'Ò' || c = 'Ó' || c = 'Ô' || c = 'Õ' || c = 'Ö' then ['O']
  else if c = 'Ù' || c = 'Ú' || c = 'Û' || c = 'Ü' then ['U']
  else if c = 'Ç' then ['C']
  else if c = 'Ñ' then ['N']
  else [c]

/-- Accent folding over a whole string. -/
def foldDiacritics (cs : JStr) : JStr :=
  (cs.map foldChar).flatten

/-- Split on a separator class, keeping only nonempty pieces (models
`split(/[..]+/g)` followed by `filter(Boolean)`); `acc` holds the current
piece reversed. -/
def splitDropAux (sep : Char → Bool) : JStr → JStr → List JStr
  | acc, [] => if acc = [] then [] else [acc.reverse]
  | acc, c :: rest =>
    if sep c then
      if acc = [] then splitDropAux sep [] rest
      else acc.reverse :: splitDropAux sep [] rest
    else splitDropAux sep (c :: acc) rest

namespace ImageSvc

/-- Source constant `DEFAULT_LIMIT` of the image-suggestion module. -/
def DEFAULT_LIMIT : Nat := 6

/-- Source constant `MAX_LIMIT` of the image-suggestion module. -/
def MAX_LIMIT : Nat := 10

/-- Source constant `STOP_TERMS`. -/
def STOP_TERMS : List JStr :=
  (["smoothie", "smoothies", "recette", "recipe", "drink", "boisson", "cube",
    "cubes", "glace", "glacons", "glaçons", "eau", "water", "sucre", "sugar",
    "yaourt", "yogurt", "lait", "milk"] : List String).map String.data

/-- Source constant `TERM_TRANSLATION` (an object literal; keys are unique,
so an association list lookup models property access). -/
def TERM_TRANSLATION : List (String × String) :=
  [("banane", "banana"), ("bananes", "banana"), ("fraise", "strawberry"),
   ("fraises", "strawberry"), ("framboise", "raspberry"),
   ("framboises", "raspberry"), ("myrtille", "blueberry"),
   ("myrtilles", "blueberry"), ("mangue", "mango"), ("ananas", "pineapple"),
   ("kiwi", "kiwi"), ("peche", "peach"), ("peches", "peach"),
   ("pêche", "peach"), ("pêches", "peach"), ("pomme", "apple"),
   ("pommes", "apple"), ("poire", "pear"), ("poires", "pear"),
   ("orange", "orange"), ("oranges", "orange"), ("citron", "lemon"),
   ("citrons", "lemon"), ("lime", "lime"), ("limes", "lime"),
   ("raisin", "grape"), ("raisins", "grape"), ("avocat", "avocado"),
   ("avocats", "avocado"), ("coco", "coconut"), ("noix", "nut"),
   ("pasteque", "watermelon"), ("pastèque", "watermelon"), ("melon", "melon")]

/-- Property lookup `TERM_TRANSLATION[token] || token`. -/
def translateTerm (t : JStr) : JStr :=
  match TERM_TRANSLATION.find? (fun p => p.1.data = t) with
  | some p => p.2.data
  | none => t

/-- Source `normalizeTerm`: NFD fold, lowercase, replace characters outside
`[a-z0-9\s-]` by spaces, collapse whitespace runs, trim. -/
def normalizeTerm (input : JStr) : JStr :=
  let folded := (foldDiacritics input).map Char.toLower
  let replaced := folded.map (fun c =>
    if ('a' ≤ c && c ≤ 'z') || ('0' ≤ c && c ≤ '9') || isJsSpace c || c = '-'
    then c else ' ')
  jsTrim (collapseRuns isJsSpace ' ' replaced)

/-- Source `splitTokens`: normalize, split on runs of whitespace or hyphens,
drop empty pieces. -/
def splitTokens (input : JStr) : List JStr :=
  splitDropAux (fun c => isJsSpace c || c = '-') [] (normalizeTerm input)

/-- One `consume(value)` call of source `pickQueryTerms`, iterating the
tokens of `value` with the early `return` once five terms are collected.
State: `seen` (the dedup set) and `result` (collected terms, in order). -/
def consumeTokens (seen result : List JStr) : List JStr → List JStr × List JStr
  | [] => (seen, result)
  | tok :: rest =>
    if tok.length < 3 || STOP_TERMS.contains tok then consumeTokens seen result rest
    else
      let translated := translateTerm tok
      if seen.contains translated then consumeTokens seen result rest
      else
        let seen1 := translated :: seen
        let result1 := result ++ [translated]
        if result1.length ≥ 5 then (seen1, result1)
        else consumeTokens seen1 result1 rest

/-- The tag loop of source `pickQueryTerms` with its early `break`. -/
def consumeTags (seen result : List JStr) : List JStr → List JStr × List JStr
  | [] => (seen, result)
  | tag :: rest =>
    let out := consumeTokens seen result (splitTokens tag)
    if out.2.length ≥ 5 then out
    else consumeTags out.1 out.2 rest

/-- Source `pickQueryTerms`. -/
def pickQueryTerms (title : Option JStr) (tags : List JStr) : List JStr :=
  let out := consumeTags [] [] tags
  if out.2.length < 3 then
    match title with
    | some t => if t = [] then out.2 else (consumeTokens out.1 out.2 (splitTokens t)).2
    | none => out.2
  else out.2

/-- Source `buildImageQuery`. -/
def buildImageQuery (title : Option JStr) (tags : List JStr) : JStr :=
  let terms := pickQueryTerms title tags
  let parts1 :=
    if terms.contains "smoothie".data then terms else terms ++ ["smoothie".data]
  let parts2 :=
    if parts1.contains "drink".data then parts1 else parts1 ++ ["drink".data]
  let joined := jsTrim (List.intercalate [' '] parts2)
  if joined = [] then "fruit smoothie drink".data else joined

/-- A JS `number` argument, restricted to the values the claims exercise:
`NaN` or a (finite) rational. -/
inductive JsNum where
  | nan : JsNum
  | num : ℚ → JsNum
deriving DecidableEq

/-- JS `Math.trunc` on a finite number: round toward zero. -/
def jsTrunc (q : ℚ) : ℤ :=
  if 0 ≤ q then q.floor else q.ceil

/-- Case-insensitive prefix test (the pattern is given lowercase). -/
def startsWithCI (pat : String) (s : JStr) : Bool :=
  pat.data.isPrefixOf (s.map Char.toLower)

/-- Test of the regular expression `^https?:\/\//i`. -/
def httpProtoTest (s : JStr) : Bool :=
  startsWithCI "http://" s || startsWithCI "https://" s

/-- Source `clampLimit` of the image-suggestion module: a falsy (`undefined`,
`0`, `NaN`) raw limit gives the default, otherwise truncate and clamp to
`[1, MAX_LIMIT]`. -/
def clampLimit (raw : Option JsNum) : Nat :=
  match raw with
  | none => DEFAULT_LIMIT
  | some .nan => DEFAULT_LIMIT
  | some (.num q) =>
    if q = 0 then DEFAULT_LIMIT
    else (max 1 (min (MAX_LIMIT : ℤ) (jsTrunc q))).toNat

/-- Source type `ImageProvider`. -/
inductive ImageProvider where
  | pexels | pixabay | unsplash
deriving DecidableEq

/-- Source interface `ImageSuggestion`. -/
structure ImageSuggestion where
  url : JStr
  thumbUrl : Option JStr
  provider : ImageProvider
  author : Option JStr
  width : Option ℤ
  height : Option ℤ
deriving DecidableEq

/-- Source interface `CacheEntry` (timestamps are epoch milliseconds). -/
structure CacheEntry where
  key : JStr
  query : JStr
  createdAt : ℤ
  expiresAt : ℤ
  providers : List ImageProvider
  items : List ImageSuggestion
deriving DecidableEq

/-- The in-memory cache index `store.entries` (a JS `Map`), modelled as an
association list from key to entry; `set` overwrites in place. -/
abbrev Store := List (JStr × CacheEntry)

/-- `Map.prototype.get`. -/
def storeGet (s : Store) (k : JStr) : Option CacheEntry :=
  (s.find? (fun e => e.1 = k)).map (fun e => e.2)

/-- `Map.prototype.set` (overwrite an existing binding, else append). -/
def storeSet (s : Store) (k : JStr) (v : CacheEntry) : Store :=
  if (s.find? (fun e => e.1 = k)).isSome then
    s.map (fun e => if e.1 = k then (k, v) else e)
  else s ++ [(k, v)]

/-- Source interface `ImageSuggestionParams`.  `forceRefresh?` is optional
in the source; `undefined` and `false` act identically, so it is modelled
as a `Bool`. -/
structure ImageSuggestionParams where
  title : Option JStr
  tags : Option (List JStr)
  limit : Option JsNum
  forceRefresh : Bool
deriving DecidableEq

/-- Source interface `ImageSuggestionResponse`. -/
structure ImageSuggestionResponse where
  query : JStr
  cacheKey : JStr
  cacheHit : Bool
  providersUsed : List ImageProvider
  items : List ImageSuggestion
deriving DecidableEq

/-- Source constant `CACHE_TTL_SECONDS` at its default value (the
`IMAGE_CACHE_TTL_SECONDS` environment override is outside the model; the
default already dominates the `max(3600, …)` guard). -/
def CACHE_TTL_SECONDS : ℤ := 60 * 60 * 24 * 14

/-- Source constant `EMPTY_CACHE_TTL_SECONDS`. -/
def EMPTY_CACHE_TTL_SECONDS : ℤ := min CACHE_TTL_SECONDS (60 * 60 * 6)

/-- Model of `createHash("sha1").update(payload).digest("hex")`:
the hash is modelled by its payload (an injective, collision-free
stand-in; the claims only compare keys for equality). -/
def sha1hex (payload : JStr) : JStr := payload

/-- Source `makeCacheKey`: hash of the string `query|limit`. -/
def makeCacheKey (query : JStr) (limit : Nat) : JStr :=
  sha1hex (query ++ [ '|' ] ++ (toString limit).data)

/-- Source `ensureHttpsUrl` (on a string input; the `unknown` non-string
case yields `null` exactly like the empty string). -/
def ensureHttpsUrl (value : JStr) : Option JStr :=
  let raw := jsTrim value
  if raw = [] then none
  else if httpProtoTest raw then some raw
  else none

/-- The dedup-and-validate loop of source `sanitizeItems`; `seen` is the
set of already-emitted URLs. -/
def sanitizeAux (seen : List JStr) : List ImageSuggestion → List ImageSuggestion
  | [] => []
  | it :: rest =>
    match ensureHttpsUrl it.url with
    | none => sanitizeAux seen rest
    | some url =>
      if seen.contains url then sanitizeAux seen rest
      else
        { it with url := url, thumbUrl := it.thumbUrl.bind ensureHttpsUrl } ::
          sanitizeAux (url :: seen) rest

/-- Source `sanitizeItems`. -/
def sanitizeItems (items : List ImageSuggestion) : List ImageSuggestion :=
  sanitizeAux [] items

/-- The sequential provider loop of source `fetchProviderResults`.  The
network is modelled by the `oracle` argument: what each provider's fetch
helper returns for the query of this request (a provider with no
configured credential, a timeout or an HTTP error returns `[]`). -/
def fetchLoop (oracle : ImageProvider → List ImageSuggestion) (limit : Nat) :
    List ImageProvider → List ImageProvider → List ImageSuggestion →
    List ImageProvider × List ImageSuggestion
  | [], used, combined => (used, combined)
  | p :: rest, used, combined =>
    let items := oracle p
    if items.length > 0 then
      let used1 := used ++ [p]
      let combined1 := combined ++ items
      if combined1.length ≥ limit then (used1, combined1)
      else fetchLoop oracle limit rest used1 combined1
    else fetchLoop oracle limit rest used combined

/-- Source `fetchProviderResults`: providers in fixed order, early exit
once enough items accumulated, then sanitize and truncate. -/
def fetchProviderResults (oracle : ImageProvider → List ImageSuggestion)
    (limit : Nat) : List ImageProvider × List ImageSuggestion :=
  let out := fetchLoop oracle limit [.pexels, .pixabay, .unsplash] [] []
  (out.1, (sanitizeItems out.2).take limit)

/-- `params.title?.trim() || undefined`. -/
def effTitle (params : ImageSuggestionParams) : Option JStr :=
  params.title.bind (fun t =>
    let t1 := jsTrim t
    if t1 = [] then none else some t1)

/-- `(params.tags || []).map(tag => String(tag).trim()).filter(Boolean)`. -/
def effTags (params : ImageSuggestionParams) : List JStr :=
  ((params.tags.getD []).map jsTrim).filter (fun t => t ≠ [])

/-- The resolved query string of a request. -/
def queryOf (params : ImageSuggestionParams) : JStr :=
  buildImageQuery (effTitle params) (effTags params)

/-- The cache key of a request: hash of the resolved query and the clamped
limit. -/
def cacheKeyOf (params : ImageSuggestionParams) : JStr :=
  makeCacheKey (queryOf params) (clampLimit params.limit)

/-- Source `getImageSuggestions` as a pure state transformer: `store` is
the in-memory cache index, `now` is `Date.now()`, `oracle` models the
provider fetches.  Returns the response and the updated store (the
asynchronous persist of the store to disk is fire-and-forget and does not
affect the response). -/
def getImageSuggestions (store : Store) (now : ℤ)
    (params : ImageSuggestionParams)
    (oracle : ImageProvider → List ImageSuggestion) :
    ImageSuggestionResponse × Store :=
  let query := queryOf params
  let limit := clampLimit params.limit
  let cacheKey := cacheKeyOf params
  let fetched := fetchProviderResults oracle limit
  let hasItems := fetched.2.length > 0
  let nextEntry : CacheEntry :=
    { key := cacheKey, query := query, createdAt := now,
      expiresAt := now +
        (if hasItems then CACHE_TTL_SECONDS else EMPTY_CACHE_TTL_SECONDS) * 1000,
      providers := fetched.1, items := fetched.2 }
  let missResp : ImageSuggestionResponse × Store :=
    ({ query := query, cacheKey := cacheKey, cacheHit := false,
       providersUsed := fetched.1, items := fetched.2 },
     storeSet store cacheKey nextEntry)
  match storeGet store cacheKey with
  | some cached =>
    if cached.expiresAt > now && !params.forceRefresh then
      ({ query := query, cacheKey := cacheKey, cacheHit := true,
         providersUsed := cached.providers, items := cached.items.take limit },
       store)
    else missResp
  | none => missResp

end ImageSvc

namespace Smoothies

/-- Source constant `DEFAULT_LIMIT` of the dataset module. -/
def DEFAULT_LIMIT : Nat := 24

/-- Source constant `MAX_LIMIT` of the dataset module. -/
def MAX_LIMIT : Nat := 60

/-- Source constant `STOP_INGREDIENTS`. -/
def STOP_INGREDIENTS : List JStr :=
  (["cubes", "cube", "glacons", "glace", "glace-pilee", "eau", "eau-froide",
    "¼", "½", "⅓", "de", "du", "des"] : List String).map String.data

/-- Source constant `DAIRY_TERMS`. -/
def DAIRY_TERMS : List JStr :=
  (["lait", "yaourt", "yogurt", "yogourt", "fromage blanc", "kefir", "kéfir",
    "cream", "creme", "crème", "whey", "lactose", "lait en poudre",
    "lait concentre", "lait concentré"] : List String).map String.data

/-- Source constant `NON_VEGAN_EXTRA_TERMS`. -/
def NON_VEGAN_EXTRA_TERMS : List JStr :=
  (["miel", "gelatine", "gélatine", "oeuf", "œuf"] : List String).map String.data

/-- Source constant `NUT_TERMS`. -/
def NUT_TERMS : List JStr :=
  (["amande", "amandes", "noix", "noisette", "noisettes", "cajou", "cashew",
    "pistache", "pistaches", "pecan", "pécan", "macadamia"] : List String).map
    String.data

/-- Source constant `PEANUT_TERMS`. -/
def PEANUT_TERMS : List JStr :=
  (["cacahuete", "cacahuètes", "arachide", "peanut"] : List String).map
    String.data

/-- Source constant `SOY_TERMS`. -/
def SOY_TERMS : List JStr :=
  (["soja", "soy"] : List String).map String.data

/-- Source constant `GLUTEN_TERMS`. -/
def GLUTEN_TERMS : List JStr :=
  (["ble", "blé", "orge", "seigle", "avoine", "granola", "biscuit", "cookies",
    "cookie"] : List String).map String.data

/-- Source constant `SESAME_TERMS`. -/
def SESAME_TERMS : List JStr :=
  (["sesame", "sésame", "tahini"] : List String).map String.data

/-- Source `clampLimit` of the dataset module.  The claims exercise it on
integer or absent inputs only, so the raw value is modelled as
`Option ℤ` (`Math.trunc` is the identity there); `undefined`, `null` and
`0` are the falsy inputs giving the default. -/
def clampLimit (raw : Option ℤ) : Nat :=
  match raw with
  | none => DEFAULT_LIMIT
  | some z => if z = 0 then DEFAULT_LIMIT else (max 1 (min (MAX_LIMIT : ℤ) z)).toNat

/-- Source `normalizeWhitespace`: non-breaking spaces to plain spaces,
whitespace runs collapsed to one space, trimmed. -/
def normalizeWhitespace (value : JStr) : JStr :=
  jsTrim (collapseRuns isJsSpace ' '
    (value.map (fun c => if c.toNat = 0xa0 then ' ' else c)))

/-- Source `normalizeForSearch`: whitespace normalization, accent folding,
lowercasing. -/
def normalizeForSearch (value : JStr) : JStr :=
  (foldDiacritics (normalizeWhitespace value)).map Char.toLower

/-- Source `slugify`: search normalization, non-alphanumeric runs replaced
by single hyphens, hyphens trimmed, truncated to 64 characters, defaulting
to `"smoothie"`. -/
def slugify (value : JStr) : JStr :=
  let hyphened := collapseRuns
    (fun c => !(('a' ≤ c && c ≤ 'z') || ('0' ≤ c && c ≤ '9'))) '-'
    (normalizeForSearch value)
  let trimmed := ((hyphened.dropWhile (fun c => c = '-')).reverse.dropWhile
    (fun c => c = '-')).reverse
  let cut := trimmed.take 64
  if cut = [] then "smoothie".data else cut

/-- Source `stripBom`. -/
def stripBom (value : JStr) : JStr :=
  match value with
  | [] => []
  | c :: rest => if c.toNat = 0xfeff then rest else c :: rest

/-- Parser state of source `parseCsvRows`: emitted rows, the fields of the
current row, the current field, and the in-quotes flag. -/
structure CsvState where
  rows : List (List JStr)
  row : List JStr
  field : JStr
  inQuotes : Bool
deriving DecidableEq

/-- The initial state of the CSV character loop. -/
def csvInit : CsvState := { rows := [], row := [], field := [], inQuotes := false }

/-- The character loop of source `parseCsvRows`.  The source reads a
one-character lookahead (for doubled quotes and for `\r\n`); the model
realizes that lookahead by matching two characters at a time (the
one-character cases are the loop's final iteration, where the lookahead
reads past the end). -/
def csvRun : CsvState → JStr → CsvState
  | s, [] => s
  | ⟨rows, row, field, true⟩, [c] =>
    if c = quoteChar then ⟨rows, row, field, false⟩
    else ⟨rows, row, field ++ [c], true⟩
  | ⟨rows, row, field, false⟩, [c] =>
    if c = quoteChar then ⟨rows, row, field, true⟩
    else if c = ',' then ⟨rows, row ++ [field], [], false⟩
    else if c = '\n' then ⟨rows ++ [row ++ [field]], [], [], false⟩
    else if c = '\r' then ⟨rows ++ [row ++ [field]], [], [], false⟩
    else ⟨rows, row, field ++ [c], false⟩
  | ⟨rows, row, field, true⟩, c :: d :: rest =>
    if c = quoteChar then
      if d = quoteChar then csvRun ⟨rows, row, field ++ [quoteChar], true⟩ rest
      else csvRun ⟨rows, row, field, false⟩ (d :: rest)
    else csvRun ⟨rows, row, field ++ [c], true⟩ (d :: rest)
  | ⟨rows, row, field, false⟩, c :: d :: rest =>
    if c = quoteChar then csvRun ⟨rows, row, field, true⟩ (d :: rest)
    else if c = ',' then csvRun ⟨rows, row ++ [field], [], false⟩ (d :: rest)
    else if c = '\n' then
      csvRun ⟨rows ++ [row ++ [field]], [], [], false⟩ (d :: rest)
    else if c = '\r' then
      if d = '\n' then csvRun ⟨rows ++ [row ++ [field]], [], [], false⟩ rest
      else csvRun ⟨rows ++ [row ++ [field]], [], [], false⟩ (d :: rest)
    else csvRun ⟨rows, row, field ++ [c], false⟩ (d :: rest)

/-- Source `parseCsvRows`: strip the byte-order mark, run the character
loop, and emit the pending trailing row when nonempty. -/
def parseCsvRows (csvText : JStr) : List (List JStr) :=
  let s := csvRun csvInit (stripBom csvText)
  if s.field.length > 0 || s.row.length > 0 then s.rows ++ [s.row ++ [s.field]]
  else s.rows

/-- JSON values, for the model of `JSON.parse` (numbers are kept as their
lexemes; the repository only ever string-ifies parsed entries). -/
inductive Json where
  | null : Json
  | bool (b : Bool) : Json
  | str (s : JStr) : Json
  | numLit (s : JStr) : Json
  | arr (es : List Json) : Json
  | obj (fields : List (JStr × Json)) : Json

/-- JSON insignificant whitespace. -/
def jsonSkipWs (cs : JStr) : JStr :=
  cs.dropWhile (fun c => c = ' ' || c = '\t' || c = '\n' || c = '\r')

/-- Decode one JSON string body (after the opening quote); `acc` is the
decoded prefix reversed.  Fails (like a `JSON.parse` throw) on bad
escapes, control characters or a missing closing quote.  `\u` escapes
decode to the scalar value; surrogate halves are outside the model. -/
def jsonStrAux : JStr → JStr → Option (JStr × JStr)
  | _, [] => none
  | acc, c :: rest =>
    if c = quoteChar then some (acc.reverse, rest)
    else if c = '\\' then
      match rest with
      | [] => none
      | e :: r2 =>
        if e = quoteChar then jsonStrAux (quoteChar :: acc) r2
        else if e = '\\' then jsonStrAux ('\\' :: acc) r2
        else if e = '/' then jsonStrAux ('/' :: acc) r2
        else if e = 'b' then jsonStrAux ('\x08' :: acc) r2
        else if e = 'f' then jsonStrAux ('\x0c' :: acc) r2
        else if e = 'n' then jsonStrAux ('\n' :: acc) r2
        else if e = 'r' then jsonStrAux ('\r' :: acc) r2
        else if e = 't' then jsonStrAux ('\t' :: acc) r2
        else if e = 'u' then
          match r2 with
          | h1 :: h2 :: h3 :: h4 :: r3 =>
            if isHex h1 && isHex h2 && isHex h3 && isHex h4 then
              let n := 4096 * hexVal h1 + 256 * hexVal h2 + 16 * hexVal h3 + hexVal h4
              jsonStrAux (Char.ofNat n :: acc) r3
            else none
          | _ => none
        else none
    else if c.toNat < 0x20 then none
    else jsonStrAux (c :: acc) rest
where
  isHex (c : Char) : Bool :=
    c.isDigit || ('a' ≤ c && c ≤ 'f') || ('A' ≤ c && c ≤ 'F')
  hexVal (c : Char) : Nat :=
    if c.isDigit then c.toNat - 48
    else if 'a' ≤ c && c ≤ 'f' then c.toNat - 87
    else if 'A' ≤ c && c ≤ 'F' then c.toNat - 55
    else 0

/-- Scan a JSON number lexeme: `-? int frac? exp?`.  Returns the lexeme and
the rest, or `none` when malformed. -/
def jsonNum (cs : JStr) : Option (JStr × JStr) :=
  let (sign, r1) :=
    match cs with
    | c :: rest => if c = '-' then (['-'], rest) else (([] : JStr), cs)
    | [] => (([] : JStr), cs)
  let intPart := r1.takeWhile Char.isDigit
  let r2 := r1.dropWhile Char.isDigit
  if intPart = [] then none
  else
    let (fracPart, r3) :=
      match r2 with
      | c :: rest =>
        if c = '.' then
          let ds := rest.takeWhile Char.isDigit
          if ds = [] then (none, r2) else (some ('.' :: ds), rest.dropWhile Char.isDigit)
        else (some [], r2)
      | [] => (some [], r2)
    match fracPart with
    | none => none
    | some fp =>
      let (expPart, r4) :=
        match r3 with
        | c :: rest =>
          if c = 'e' || c = 'E' then
            let (es, rest2) :=
              match rest with
              | d :: r5 => if d = '+' || d = '-' then ([c, d], r5) else ([c], rest)
              | [] => ([c], rest)
            let ds := rest2.takeWhile Char.isDigit
            if ds = [] then (none, r3) else (some (es ++ ds), rest2.dropWhile Char.isDigit)
          else (some [], r3)
        | [] => (some [], r3)
      match expPart with
      | none => none
      | some ep => some (sign ++ intPart ++ fp ++ ep, r4)

mutual

/-- Fueled recursive-descent parser of one JSON value; returns the value
and the unconsumed rest. -/
def jsonValue : Nat → JStr → Option (Json × JStr)
  | 0, _ => none
  | fuel + 1, input =>
    match jsonSkipWs input with
    | [] => none
    | c :: rest =>
      if c = quoteChar then
        (jsonStrAux [] rest).map (fun out => (Json.str out.1, out.2))
      else if c = '[' then
        match jsonSkipWs rest with
        | d :: r2 =>
          if d = ']' then some (Json.arr [], r2)
          else (jsonArrItems fuel rest).map (fun out => (Json.arr out.1, out.2))
        | [] => none
      else if c = '{' then
        match jsonSkipWs rest with
        | d :: r2 =>
          if d = '}' then some (Json.obj [], r2)
          else (jsonObjItems fuel rest).map (fun out => (Json.obj out.1, out.2))
        | [] => none
      else if c = 't' then
        match rest with
        | 'r' :: 'u' :: 'e' :: r2 => some (Json.bool true, r2)
        | _ => none
      else if c = 'f' then
        match rest with
        | 'a' :: 'l' :: 's' :: 'e' :: r2 => some (Json.bool false, r2)
        | _ => none
      else if c = 'n' then
        match rest with
        | 'u' :: 'l' :: 'l' :: r2 => some (Json.null, r2)
        | _ => none
      else
        (jsonNum (c :: rest)).map (fun out => (Json.numLit out.1, out.2))

/-- Fueled parse of comma-separated array elements up to `]`. -/
def jsonArrItems : Nat → JStr → Option (List Json × JStr)
  | 0, _ => none
  | fuel + 1, input =>
    match jsonValue fuel input with
    | none => none
    | some (v, rest) =>
      match jsonSkipWs rest with
      | ',' :: r2 =>
        (jsonArrItems fuel r2).map (fun out => (v :: out.1, out.2))
      | ']' :: r2 => some ([v], r2)
      | _ => none

/-- Fueled parse of comma-separated object members up to the closing
brace. -/
def jsonObjItems : Nat → JStr → Option (List (JStr × Json) × JStr)
  | 0, _ => none
  | fuel + 1, input =>
    match jsonSkipWs input with
    | c :: rest =>
      if c = quoteChar then
        match jsonStrAux [] rest with
        | none => none
        | some (key, r2) =>
          match jsonSkipWs r2 with
          | ':' :: r3 =>
            match jsonValue fuel r3 with
            | none => none
            | some (v, r4) =>
              match jsonSkipWs r4 with
              | ',' :: r5 =>
                (jsonObjItems fuel r5).map (fun out => ((key, v) :: out.1, out.2))
              | '}' :: r5 => some ([(key, v)], r5)
              | _ => none
          | _ => none
      else none
    | [] => none

end

/-- Model of `JSON.parse`: parse one value, require only whitespace after
it.  Returns `none` where `JSON.parse` throws. -/
def jsonParse (s : JStr) : Option Json :=
  match jsonValue (2 * s.length + 2) s with
  | some (v, rest) => if jsonSkipWs rest = [] then some v else none
  | none => none

mutual

/-- JS `String(x)` on a parsed JSON value: strings are themselves, numbers
print as their lexeme, arrays join their elements with commas (`null`
printing as the empty string), objects print as `[object Object]`. -/
def jsToString : Json → JStr
  | Json.null => "null".data
  | Json.bool true => "true".data
  | Json.bool false => "false".data
  | Json.str s => s
  | Json.numLit s => s
  | Json.arr es => List.intercalate [','] (jsArrElems es)
  | Json.obj _ => ('[' :: "object Object".data) ++ [']']

/-- Element strings of an array for `String(x)` (`null` prints empty). -/
def jsArrElems : List Json → List JStr
  | [] => []
  | Json.null :: rest => [] :: jsArrElems rest
  | e :: rest => jsToString e :: jsArrElems rest

end

end Smoothies

namespace Smoothies

end Smoothies

namespace Smoothies

/-- State machine for the matches of `/"([^"]+)"/g`: `none` is the
outside-a-match state, `some acc` holds the (reversed) content after an
opening quote.  A closing quote with empty content cannot complete a match
(the capture needs at least one character), but can itself open the next
match, exactly as the regex engine resumes at that position. -/
def quotedScanAux : Option JStr → JStr → List JStr
  | _, [] => []
  | none, c :: rest =>
    if c = quoteChar then quotedScanAux (some []) rest
    else quotedScanAux none rest
  | some acc, c :: rest =>
    if c = quoteChar then
      if acc = [] then quotedScanAux (some []) rest
      else acc.reverse :: quotedScanAux none rest
    else quotedScanAux (some (c :: acc)) rest

/-- The matches of `/"([^"]+)"/g`: contents of non-overlapping straight
double-quoted segments (raw, before whitespace normalization). -/
def quotedScan (cs : JStr) : List JStr :=
  quotedScanAux none cs

/-- State machine for the matches of `/«\s*([^»]+?)\s*»/g` (an empty
`«»` pair is not a match, and `»` cannot open one).  The `\s*` trimming of
the regex is subsumed by the later `normalizeWhitespace`. -/
def guillemetScanAux : Option JStr → JStr → List JStr
  | _, [] => []
  | none, c :: rest =>
    if c = '«' then guillemetScanAux (some []) rest
    else guillemetScanAux none rest
  | some acc, c :: rest =>
    if c = '»' then
      if acc = [] then guillemetScanAux none rest
      else acc.reverse :: guillemetScanAux none rest
    else guillemetScanAux (some (c :: acc)) rest

/-- The matches of `/«\s*([^»]+?)\s*»/g`: contents of guillemet-quoted
segments. -/
def guillemetScan (cs : JStr) : List JStr :=
  guillemetScanAux none cs

/-- Source `extractQuotedItems`: straight-quoted then guillemet-quoted
segments, whitespace-normalized, blanks dropped. -/
def extractQuotedItems (raw : JStr) : List JStr :=
  ((quotedScan raw).map normalizeWhitespace).filter (fun x => x ≠ []) ++
    ((guillemetScan raw).map normalizeWhitespace).filter (fun x => x ≠ [])

/-- One `JSON.parse` attempt of source `parseLooseJsonArray`: succeed only
when the parse succeeds and yields an array; entries are string-ified,
whitespace-normalized and blank entries dropped. -/
def jsonArrayAttempt (s : JStr) : Option (List JStr) :=
  match jsonParse s with
  | some (Json.arr es) =>
    some ((es.map (fun e => normalizeWhitespace (jsToString e))).filter
      (fun x => x ≠ []))
  | _ => none

/-- Source `parseLooseJsonArray`: requires square brackets, tries a direct
JSON parse, then a parse after substituting curly/smart quotes. -/
def parseLooseJsonArray (raw : JStr) : Option (List JStr) :=
  let trimmed := jsTrim raw
  if trimmed.head? = some '[' && trimmed.getLast? = some ']' then
    match jsonArrayAttempt trimmed with
    | some r => some r
    | none =>
      let normalizedQuotes := trimmed.map (fun c =>
        if c = '«' || c = '»' || c = '“' || c = '”' then quoteChar
        else if c.toNat = 0x2018 || c.toNat = 0x2019 then aposChar
        else c)
      jsonArrayAttempt normalizedQuotes
  else none

/-- The loop of source `uniqueStrings`; `seen` is the dedup set. -/
def uniqueAux (seen : List JStr) : List JStr → List JStr
  | [] => []
  | v :: rest =>
    if seen.contains v then uniqueAux seen rest
    else v :: uniqueAux (v :: seen) rest

/-- Source `uniqueStrings`: first occurrence of each string, in order. -/
def uniqueStrings (values : List JStr) : List JStr :=
  uniqueAux [] values

/-- JS `split` on a set of single characters, keeping empty pieces
(models `split(/[;,]/g)` and `split(/[.;•]/g)`). -/
def splitKeepAux (sep : Char → Bool) : JStr → JStr → List JStr
  | acc, [] => [acc.reverse]
  | acc, c :: rest =>
    if sep c then acc.reverse :: splitKeepAux sep [] rest
    else splitKeepAux sep (c :: acc) rest

/-- JS `split` on a character class, keeping empty pieces. -/
def splitKeep (sep : Char → Bool) (cs : JStr) : List JStr :=
  splitKeepAux sep [] cs

/-- The character class `['"“”«»]` of the edge-quote-stripping regex in
source `parseIngredientTokens`. -/
def isEdgeQuote (c : Char) : Bool :=
  c = aposChar || c = quoteChar || c = '“' || c = '”' || c = '«' || c = '»'

/-- `replace(/^['"“”«»]+|['"“”«»]+$/g, "")`. -/
def stripEdgeQuotes (cs : JStr) : JStr :=
  ((cs.dropWhile isEdgeQuote).reverse.dropWhile isEdgeQuote).reverse

/-- The `fromNer` cascade of source `parseIngredientTokens`
(`parseLooseJsonArray(nerRaw) ?? extractQuotedItems(nerRaw) ?? []`;
`extractQuotedItems` never yields `null`, so the final `?? []` is inert). -/
def nerCandidates (nerRaw : JStr) : List JStr :=
  match parseLooseJsonArray nerRaw with
  | some l => l
  | none => extractQuotedItems nerRaw

/-- Source `parseIngredientTokens`. -/
def parseIngredientTokens (nerRaw ingredientsRaw : JStr) : List JStr :=
  let fromNer := nerCandidates nerRaw
  if fromNer.length > 0 then
    uniqueStrings (fromNer.map (fun item =>
      normalizeWhitespace (stripEdgeQuotes item)))
  else
    let quoted := extractQuotedItems ingredientsRaw
    if quoted.length > 0 then uniqueStrings quoted
    else
      uniqueStrings
        (((splitKeep (fun c => c = ';' || c = ',') ingredientsRaw).map
          normalizeWhitespace).filter (fun item => item.length > 1))

/-- Source `parseIngredientLines`. -/
def parseIngredientLines (ingredientsRaw : JStr)
    (ingredientTokens : List JStr) : List JStr :=
  let quoted := extractQuotedItems ingredientsRaw
  if quoted.length > 0 then quoted
  else
    let pieces := ((splitKeep (fun c => c = ';' || c = ',') ingredientsRaw).map
      normalizeWhitespace).filter (fun x => x ≠ [])
    if pieces.length ≥ 2 then pieces else ingredientTokens

/-- Source `parseDirections`. -/
def parseDirections (raw : JStr) : List JStr :=
  let fallback :=
    let quoted := extractQuotedItems raw
    if quoted.length > 0 then quoted
    else
      ((((splitKeep (fun c => c = '.' || c = ';' || c = '•') raw).map
        normalizeWhitespace).filter (fun x => x ≠ []))).take 8
  match parseLooseJsonArray raw with
  | some parsed => if parsed.length > 0 then parsed else fallback
  | none => fallback

end Smoothies

namespace Smoothies

/-- JS `String.prototype.includes`: `pat` occurs as a contiguous substring
of `hay`. -/
def hasInfix (hay pat : JStr) : Bool :=
  match hay with
  | [] => pat.isEmpty
  | _ :: rest => pat.isPrefixOf hay || hasInfix rest pat

/-- Source `containsAny`: some haystack contains some (nonempty,
search-normalized) term as a substring. -/
def containsAny (haystacks : List JStr) (terms : List JStr) : Bool :=
  haystacks.any (fun haystack => terms.any (fun term =>
    let normalizedTerm := normalizeForSearch term
    !normalizedTerm.isEmpty && hasInfix haystack normalizedTerm))

/-- The `tags` record of a recipe (source type `RecipeFlags`). -/
structure RecipeFlags where
  vegan : Bool
  lactose : Bool
  nuts : Bool
  peanut : Bool
  soy : Bool
  gluten : Bool
  sesame : Bool
deriving DecidableEq

/-- The `normalizedHaystacks` list built at the top of source
`computeFlags`. -/
def flagHaystacks (ingredientTokens : List JStr) (ingredientsRaw : JStr)
    (directions : List JStr) : List JStr :=
  ingredientTokens.map normalizeForSearch ++
    [normalizeForSearch ingredientsRaw,
     normalizeForSearch (List.intercalate [' '] directions)]

/-- Source `computeFlags`. -/
def computeFlags (ingredientTokens : List JStr) (ingredientsRaw : JStr)
    (directions : List JStr) : RecipeFlags :=
  let normalizedHaystacks := flagHaystacks ingredientTokens ingredientsRaw directions
  let hasLactose := containsAny normalizedHaystacks DAIRY_TERMS
  let hasNuts := containsAny normalizedHaystacks NUT_TERMS
  let hasPeanut := containsAny normalizedHaystacks PEANUT_TERMS
  let hasSoy := containsAny normalizedHaystacks SOY_TERMS
  let hasGluten := containsAny normalizedHaystacks GLUTEN_TERMS
  let hasSesame := containsAny normalizedHaystacks SESAME_TERMS
  let nonVegan := hasLactose || containsAny normalizedHaystacks NON_VEGAN_EXTRA_TERMS
  { vegan := !nonVegan, lactose := hasLactose, nuts := hasNuts,
    peanut := hasPeanut, soy := hasSoy, gluten := hasGluten,
    sesame := hasSesame }

/-- One step of source `hash32`: xor in a character code, multiply by the
FNV prime with 32-bit wraparound (`Math.imul` keeps the low 32 bits; the
final `>>> 0` reads the accumulator as an unsigned 32-bit value). -/
def hash32Step (h : Nat) (c : Char) : Nat :=
  ((h.xor c.toNat) * 16777619) % 4294967296

/-- Source `hash32`: FNV-1a-style 32-bit string hash. -/
def hash32 (value : JStr) : Nat :=
  value.foldl hash32Step 2166136261

/-- Source `randomOrderScore`: hash of the template string `seed:id`. -/
def randomOrderScore (seed id : JStr) : Nat :=
  hash32 (seed ++ [':'] ++ id)

/-- Membership of the class `[\w.-]` (`\w` is `[A-Za-z0-9_]`). -/
def isWordDotDash (c : Char) : Bool :=
  ('a' ≤ c && c ≤ 'z') || ('A' ≤ c && c ≤ 'Z') || ('0' ≤ c && c ≤ '9') ||
    c = '_' || c = '.' || c = '-'

/-- An ASCII letter (class `[a-z]` under the `i` flag). -/
def isAsciiLetterCI (c : Char) : Bool :=
  ('a' ≤ c && c ≤ 'z') || ('A' ≤ c && c ≤ 'Z')

/-- Test of `/^[\w.-]+\.[a-z]{2,}/i`: some nonempty prefix of word
characters, then a dot, then at least two letters. -/
def domainishTest (s : JStr) : Bool :=
  (List.range s.length).any (fun i =>
    decide (1 ≤ i) && (s.take i).all isWordDotDash &&
      s.getD i ' ' = '.' &&
      isAsciiLetterCI (s.getD (i + 1) ' ') && isAsciiLetterCI (s.getD (i + 2) ' '))

/-- Source `safeProtocolUrl` (the `undefined`/`null` inputs behave like the
empty string). -/
def safeProtocolUrl (value : JStr) : Option JStr :=
  if value = [] then none
  else
    let trimmed := jsTrim value
    if trimmed = [] then none
    else if ImageSvc.httpProtoTest trimmed then some trimmed
    else if domainishTest trimmed then some ("https://".data ++ trimmed)
    else none

/-- The row object built by `header.forEach(...)` in source `rowToRecord`:
property read `record[key]`, where a later duplicate header key overwrites
an earlier one and a missing cell reads as the empty string (`?? ""`; an
unassigned key also behaves as empty at every use site). -/
def getField (header row : List JStr) (key : JStr) : JStr :=
  header.enum.foldl (fun acc p => if p.2 = key then row.getD p.1 [] else acc) []

/-- The keys of the row object in insertion order (duplicates collapse to
their first position).  Header cells that are integer-like strings would
be ordered first by JS; such headers are outside the model. -/
def objectKeys (header : List JStr) : List JStr :=
  header.foldl (fun acc k => if acc.contains k then acc else acc ++ [k]) []

/-- `Object.values(record)`. -/
def objectValues (header row : List JStr) : List JStr :=
  (objectKeys header).map (getField header row)

/-- The image-extension alternation `(?:jpg|jpeg|png|webp|gif)`; returns
the length of the first alternative matching at the front. -/
def extMatchLen (cs : JStr) : Option Nat :=
  (["jpg", "jpeg", "png", "webp", "gif"] : List String).findSome?
    (fun e => if ImageSvc.startsWithCI e cs then some e.length else none)

/-- The body class `[^\s"'<>]` of the image-URL regex. -/
def urlBodyChar (c : Char) : Bool :=
  !(isJsSpace c || c = quoteChar || c = aposChar || c = '<' || c = '>')

/-- Given the maximal run of body characters, the end position of the
greedy match `[^\s"'<>]+\.(ext)`: the largest `k ≥ 1` with a dot at `k`
followed by an extension; returns the matched length `k + 1 + extLen`. -/
def runMatchEnd (R : JStr) : Option Nat :=
  (List.range R.length).reverse.findSome? (fun k =>
    if decide (1 ≤ k) && R.getD k ' ' = '.' then
      match extMatchLen (R.drop (k + 1)) with
      | some n => some (k + 1 + n)
      | none => none
    else none)

/-- Try the image-URL regex at the start of `s`: the absolute alternative
`https?:\/\/[^\s"'<>]+\.(ext)` first, then the root-relative alternative
`\/[^\s"'<>]+\.(ext)`. -/
def imageUrlMatchAt (s : JStr) : Option JStr :=
  let alt1 :=
    let protoLen :=
      if ImageSvc.startsWithCI "https://" s then some 8
      else if ImageSvc.startsWithCI "http://" s then some 7
      else none
    match protoLen with
    | some pl =>
      let R := (s.drop pl).takeWhile urlBodyChar
      match runMatchEnd R with
      | some m => some (s.take pl ++ R.take m)
      | none => none
    | none => none
  match alt1 with
  | some r => some r
  | none =>
    match s with
    | c :: rest =>
      if c = '/' then
        let R := rest.takeWhile urlBodyChar
        match runMatchEnd R with
        | some m => some (c :: R.take m)
        | none => none
      else none
    | [] => none

/-- Leftmost match of the image-URL regex (`String.prototype.match`). -/
def imageUrlMatch : JStr → Option JStr
  | [] => none
  | c :: rest =>
    match imageUrlMatchAt (c :: rest) with
    | some r => some r
    | none => imageUrlMatch rest

/-- Source `detectImageUrlFromRow`: priority columns first (truthy values
only), then every column value, returning the first regex match. -/
def detectImageUrlFromRow (header row : List JStr) : Option JStr :=
  let priorityKeys :=
    (["image", "image_url", "photo", "thumbnail", "img", "picture"] :
      List String).map String.data
  let priorityVals := (priorityKeys.map (getField header row)).filter
    (fun v => v ≠ [])
  (priorityVals ++ objectValues header row).findSome? imageUrlMatch

/-- Source type `SmoothieRecordInternal` (record fields plus the internal
search/sort fields). -/
structure SmoothieRecordInternal where
  id : JStr
  slug : JStr
  title : JStr
  imageUrl : Option JStr
  hasImage : Bool
  ingredients : List JStr
  ingredientsRaw : JStr
  ingredientLines : List JStr
  directions : List JStr
  portions : Option JStr
  source : JStr
  sourceLink : Option JStr
  directionsPreview : Option JStr
  tags : RecipeFlags
  popularityScore : Nat
  searchBlob : JStr
  ingredientSlugs : List JStr
  sortName : JStr
deriving DecidableEq

/-- JS `a || b` on strings. -/
def jsOr (a b : JStr) : JStr := if a = [] then b else a

/-- Source `rowToRecord`: `none` for a blank row or a whitespace-only
title, else the parsed record (with `popularityScore` initialized to 0,
assigned later by the dataset builder). -/
def rowToRecord (row header : List JStr) (index : Nat) :
    Option SmoothieRecordInternal :=
  if row.length = 0 || row.all (fun cell => normalizeWhitespace cell = []) then
    none
  else
    let title := normalizeWhitespace (jsOr (getField header row "title".data)
      ("Smoothie ".data ++ (toString (index + 1)).data))
    if title = [] then none
    else
      let ingredientTokens := parseIngredientTokens
        (getField header row "NER".data) (getField header row "ingredients".data)
      let ingredientLines := parseIngredientLines
        (getField header row "ingredients".data) ingredientTokens
      let directions := parseDirections (getField header row "directions".data)
      let flags := computeFlags ingredientTokens
        (getField header row "ingredients".data) directions
      let imageUrl := detectImageUrlFromRow header row
      let numericId := index + 1
      let ingredientsRaw := normalizeWhitespace (getField header row "ingredients".data)
      let searchableFields := [title, ingredientsRaw] ++ ingredientTokens ++
        ingredientLines ++ directions
      some
        { id := "sm-".data ++ (toString numericId).data,
          slug := slugify title ++ ['-'] ++ (toString numericId).data,
          title := title,
          imageUrl := imageUrl,
          hasImage := imageUrl.isSome,
          ingredients := ingredientTokens,
          ingredientsRaw := ingredientsRaw,
          ingredientLines := ingredientLines,
          directions := directions,
          portions :=
            (let p := normalizeWhitespace (getField header row "portions".data)
             if p = [] then none else some p),
          source := normalizeWhitespace (jsOr (getField header row "source".data)
            "Source inconnue".data),
          sourceLink := safeProtocolUrl (getField header row "link".data),
          directionsPreview :=
            (match directions.head? with
             | some d => if d = [] then none else some d
             | none => none),
          tags := flags,
          popularityScore := 0,
          searchBlob := normalizeForSearch
            (List.intercalate " | ".data searchableFields),
          ingredientSlugs := uniqueStrings (ingredientTokens.map slugify),
          sortName := normalizeForSearch title }

end Smoothies

namespace Smoothies

/-- The record-building loop of source `loadDatasetInternal`: each data row
goes through `rowToRecord` with the count of successfully parsed records so
far as its ordinal; rejected rows consume no ordinal. -/
def buildRawAux (header : List JStr) :
    List (List JStr) → List SmoothieRecordInternal → List SmoothieRecordInternal
  | [], acc => acc
  | row :: rest, acc =>
    match rowToRecord row header acc.length with
    | some recipe => buildRawAux header rest (acc ++ [recipe])
    | none => buildRawAux header rest acc

/-- One `ingredientFreq` update for an eligible slug: bump the count of an
existing entry (keeping its first label), else insert with count 1. -/
def freqBump (m : List (JStr × JStr × Nat)) (slug ing : JStr) :
    List (JStr × JStr × Nat) :=
  if (m.find? (fun e => e.1 = slug)).isSome then
    m.map (fun e => if e.1 = slug then (e.1, e.2.1, e.2.2 + 1) else e)
  else m ++ [(slug, ing, 1)]

/-- The per-ingredient `ingredientFreq` update of source
`loadDatasetInternal`: skip empty, stop-listed, or too-short slugs. -/
def freqAddIngredient (m : List (JStr × JStr × Nat)) (ing : JStr) :
    List (JStr × JStr × Nat) :=
  let slug := slugify ing
  if slug = [] || STOP_INGREDIENTS.contains slug || slug.length < 2 then m
  else freqBump m slug ing

/-- The `ingredientFreq` map accumulated over all parsed records (a JS
`Map` from ingredient slug to label and count, modelled as an association
list in insertion order). -/
def ingredientFreqOf (items : List SmoothieRecordInternal) :
    List (JStr × JStr × Nat) :=
  items.foldl (fun m recipe => recipe.ingredients.foldl freqAddIngredient m) []

/-- `ingredientFreq.get(slug)`. -/
def freqGet (m : List (JStr × JStr × Nat)) (slug : JStr) :
    Option (JStr × Nat) :=
  (m.find? (fun e => e.1 = slug)).map (fun e => e.2)

/-- The second-pass score of source `loadDatasetInternal`: capped ingredient
frequencies plus the vegan / lactose-free / image bonuses. -/
def scoreOf (m : List (JStr × JStr × Nat)) (r : SmoothieRecordInternal) : Nat :=
  (r.ingredients.foldl (fun score ing =>
    match freqGet m (slugify ing) with
    | some meta => score + min meta.2 400
    | none => score) 0)
  + (if r.tags.vegan then 40 else 0)
  + (if !r.tags.lactose then 25 else 0)
  + (if r.hasImage then 10 else 0)

/-- The second pass: write each record's `popularityScore`. -/
def assignScores (m : List (JStr × JStr × Nat))
    (items : List SmoothieRecordInternal) : List SmoothieRecordInternal :=
  items.map (fun r => { r with popularityScore := scoreOf m r })

/-- Source `loadDatasetInternal`, restricted to the record list (the
`bySlug`/`byId` indexes and the `meta` block are not needed by any claim
and are omitted from the model; the CSV file contents are the explicit
argument). -/
def loadDataset (csvText : JStr) : List SmoothieRecordInternal :=
  let rows := parseCsvRows csvText
  if rows.length < 2 then []
  else
    let header := (rows.headD []).map normalizeWhitespace
    let rawItems := buildRawAux header (rows.drop 1) []
    assignScores (ingredientFreqOf rawItems) rawItems

/-- Source type `SortKey`. -/
inductive SortKey where
  | random | rating | name
deriving DecidableEq

/-- Source type `ExclusionPresetKey`. -/
inductive ExclusionPresetKey where
  | vegan | lactose | nuts | peanut | soy | gluten | sesame
deriving DecidableEq

/-- Source `matchesPreset`: the vegan preset matches records that are not
vegan; every other preset matches when its flag is set. -/
def matchesPreset (item : SmoothieRecordInternal) :
    ExclusionPresetKey → Bool
  | .vegan => !item.tags.vegan
  | .lactose => item.tags.lactose
  | .nuts => item.tags.nuts
  | .peanut => item.tags.peanut
  | .soy => item.tags.soy
  | .gluten => item.tags.gluten
  | .sesame => item.tags.sesame

/-- Source type `SmoothieListItem`. -/
structure SmoothieListItem where
  id : JStr
  slug : JStr
  title : JStr
  imageUrl : Option JStr
  hasImage : Bool
  ingredients : List JStr
  portions : Option JStr
  source : JStr
  sourceLink : Option JStr
  directionsPreview : Option JStr
  tags : RecipeFlags
  popularityScore : Nat
  orderScore : Nat
deriving DecidableEq

/-- Source `toListItem`. -/
def toListItem (item : SmoothieRecordInternal) (orderScore : Nat) :
    SmoothieListItem :=
  { id := item.id, slug := item.slug, title := item.title,
    imageUrl := item.imageUrl, hasImage := item.hasImage,
    ingredients := item.ingredients, portions := item.portions,
    source := item.source, sourceLink := item.sourceLink,
    directionsPreview := item.directionsPreview, tags := item.tags,
    popularityScore := item.popularityScore, orderScore := orderScore }

/-- Source interface `QueryOptions`.  The numeric `offset`/`limit` fields
are modelled as optional integers (the claims only exercise integers). -/
structure QueryOptions where
  q : Option JStr
  excludeIngredients : Option (List JStr)
  excludePresets : Option (List ExclusionPresetKey)
  includeIds : Option (List JStr)
  sort : Option SortKey
  seed : Option JStr
  offset : Option ℤ
  limit : Option ℤ
deriving DecidableEq

/-- Source interface `SmoothieListResponse`. -/
structure SmoothieListResponse where
  items : List SmoothieListItem
  total : Nat
  offset : Nat
  nextOffset : Option Nat
  limit : Nat
deriving DecidableEq

/-- `searchTerms`: the normalized free-text query split on whitespace. -/
def effSearchTerms (o : QueryOptions) : List JStr :=
  splitDropAux isJsSpace [] (normalizeForSearch (normalizeWhitespace (o.q.getD [])))

/-- `excludeIngredients`: the slugified exclusion set (a JS `Set`,
modelled by the underlying list; only membership is used). -/
def effExcludeSlugs (o : QueryOptions) : List JStr :=
  (o.excludeIngredients.getD []).map slugify

/-- `excludePresets` as a list (set membership only). -/
def effExcludePresets (o : QueryOptions) : List ExclusionPresetKey :=
  o.excludePresets.getD []

/-- `includeIds`: trimmed, blanks dropped. -/
def effIncludeIds (o : QueryOptions) : List JStr :=
  ((o.includeIds.getD []).map jsTrim).filter (fun s => s ≠ [])

/-- `options.sort || "random"`. -/
def effSort (o : QueryOptions) : SortKey :=
  o.sort.getD .random

/-- `options.seed && options.seed.trim() ? options.seed.trim() : "seed"`. -/
def effSeed (o : QueryOptions) : JStr :=
  match o.seed with
  | some s => if jsTrim s = [] then "seed".data else jsTrim s
  | none => "seed".data

/-- `Math.max(0, Math.trunc(options.offset ?? 0))`. -/
def effOffset (o : QueryOptions) : Nat :=
  (max 0 (o.offset.getD 0)).toNat

/-- The clamped page size. -/
def effLimit (o : QueryOptions) : Nat :=
  clampLimit o.limit

/-- The filter pipeline of source `querySmoothies`: id allow-list, search
terms (AND semantics), excluded ingredient slugs, excluded presets (the
preset loop with early `return false` is `all (not matched)`). -/
def filteredItems (cache : List SmoothieRecordInternal) (o : QueryOptions) :
    List SmoothieRecordInternal :=
  let step1 :=
    if effIncludeIds o ≠ [] then
      cache.filter (fun item => (effIncludeIds o).contains item.id)
    else cache
  let step2 :=
    if effSearchTerms o ≠ [] then
      step1.filter (fun item =>
        (effSearchTerms o).all (fun term => hasInfix item.searchBlob term))
    else step1
  let step3 :=
    if effExcludeSlugs o ≠ [] then
      step2.filter (fun item =>
        !(item.ingredientSlugs.any (fun ingredientSlug =>
          (effExcludeSlugs o).contains ingredientSlug)))
    else step2
  if effExcludePresets o ≠ [] then
    step3.filter (fun item =>
      (effExcludePresets o).all (fun preset => !matchesPreset item preset))
  else step3

/-- The decoration step: pair each record with its order key. -/
def decorate (o : QueryOptions) (item : SmoothieRecordInternal) :
    SmoothieRecordInternal × Nat :=
  (item,
   if effSort o = .random then randomOrderScore (effSeed o) item.id
   else item.popularityScore)

/-- Model of `String.prototype.localeCompare` (with or without the `"fr"`
locale argument): code-point lexicographic three-way comparison.  Locale
collation differences only reorder equal-hash / equal-popularity ties and
are outside the model. -/
def cmpLex : JStr → JStr → ℤ
  | [], [] => 0
  | [], _ :: _ => -1
  | _ :: _, [] => 1
  | a :: as, b :: bs => if a < b then -1 else if b < a then 1 else cmpLex as bs

/-- The sort comparator of source `querySmoothies` for each sort mode
(JS `x - y || tiebreak` yields the tiebreak exactly when `x = y`). -/
def cmpFor (o : QueryOptions) (a b : SmoothieRecordInternal × Nat) : ℤ :=
  match effSort o with
  | .random =>
    if a.2 = b.2 then cmpLex a.1.sortName b.1.sortName
    else (a.2 : ℤ) - (b.2 : ℤ)
  | .name => cmpLex a.1.sortName b.1.sortName
  | .rating =>
    if a.1.popularityScore = b.1.popularityScore then
      cmpLex a.1.sortName b.1.sortName
    else (b.1.popularityScore : ℤ) - (a.1.popularityScore : ℤ)

/-- The decorated, sorted result list (`Array.prototype.sort` is stable;
`mergeSort` with `comparator ≤ 0` models it). -/
def sortedDecorated (cache : List SmoothieRecordInternal) (o : QueryOptions) :
    List (SmoothieRecordInternal × Nat) :=
  ((filteredItems cache o).map (decorate o)).mergeSort
    (fun a b => decide (cmpFor o a b ≤ 0))

/-- The page slice `decorated.slice(offset, offset + limit)`. -/
def pageOf (cache : List SmoothieRecordInternal) (o : QueryOptions) :
    List (SmoothieRecordInternal × Nat) :=
  ((sortedDecorated cache o).drop (effOffset o)).take (effLimit o)

/-- Source `querySmoothies` as a pure function of the catalog records and
the query options. -/
def querySmoothies (cache : List SmoothieRecordInternal) (o : QueryOptions) :
    SmoothieListResponse :=
  let decorated := sortedDecorated cache o
  let items := (pageOf cache o).map (fun p => toListItem p.1 p.2)
  let nextOffset :=
    if effOffset o + items.length < decorated.length then
      some (effOffset o + items.length)
    else none
  { items := items, total := decorated.length, offset := effOffset o,
    nextOffset := nextOffset, limit := effLimit o }

/-- The query options with the offset replaced (the cursor of the next
page request). -/
def setOffset (o : QueryOptions) (n : Nat) : QueryOptions :=
  { o with offset := some (n : ℤ) }

/-- The page-following client loop: start at a given offset, call
`querySmoothies`, and follow `nextOffset` until it is `null` (with a fuel
bound to make the recursion evidently total). -/
def collectPages (cache : List SmoothieRecordInternal) (o : QueryOptions) :
    Nat → Nat → List SmoothieListItem
  | 0, _ => []
  | fuel + 1, off =>
    let resp := querySmoothies cache (setOffset o off)
    resp.items ++
      (match resp.nextOffset with
       | some n => collectPages cache o fuel n
       | none => [])

end Smoothies

/-! Concrete fixtures used by witness theorems. -/

/-- A request with no title, no tags, default limit (its resolved query is
`"smoothie drink"`). -/
def wParams : ImageSvc.ImageSuggestionParams :=
  { title := none, tags := none, limit := none, forceRefresh := false }

/-- A live cache entry for the key of `wParams` (expires at time 5). -/
def wEntry : ImageSvc.CacheEntry :=
  { key := ImageSvc.cacheKeyOf wParams, query := ImageSvc.queryOf wParams,
    createdAt := 0, expiresAt := 5, providers := [.pexels],
    items := [] }

/-- A store holding exactly `wEntry`. -/
def wStore : ImageSvc.Store := [(ImageSvc.cacheKeyOf wParams, wEntry)]

/-- A request whose raw limit 12 clamps to 10. -/
def wParamsA : ImageSvc.ImageSuggestionParams :=
  { title := none, tags := none, limit := some (.num 12), forceRefresh := false }

/-- A request whose raw limit 99 also clamps to 10. -/
def wParamsB : ImageSvc.ImageSuggestionParams :=
  { title := none, tags := none, limit := some (.num 99), forceRefresh := false }

/-- A CSV input whose single data row has the NER cell `["«"]`: the parsed
entry survives the JSON-array branch (it is nonblank), but stripping edge
quote characters then leaves the empty string as an ingredient token. -/
def c6Csv : JStr :=
  ("title,NER\nx," ++ String.mk [quoteChar, '[', quoteChar, quoteChar, '«',
    quoteChar, quoteChar, ']', quoteChar]).data

/-- An all-default record (used only as a `getD` fallback in witnesses). -/
def dummyRecord : Smoothies.SmoothieRecordInternal :=
  { id := [], slug := [], title := [], imageUrl := none, hasImage := false,
    ingredients := [], ingredientsRaw := [], ingredientLines := [],
    directions := [], portions := none, source := [], sourceLink := none,
    directionsPreview := none,
    tags := ⟨false, false, false, false, false, false, false⟩,
    popularityScore := 0, searchBlob := [], ingredientSlugs := [],
    sortName := [] }

/-- Witness header for the record-level claims. -/
def wHeader : List JStr := ["title".data, "ingredients".data]

/-- Witness row: title `x`, ingredients `lait, avoine`. -/
def wRow : List JStr := ["x".data, "lait, avoine".data]

/-- The record parsed from `wRow` (concrete by evaluation). -/
def wRec : Smoothies.SmoothieRecordInternal :=
  (Smoothies.rowToRecord wRow wHeader 0).getD dummyRecord

/-- The row-boundary transition of the CSV state machine: emit the pending
field and row. -/
def csvBoundary (s : Smoothies.CsvState) : Smoothies.CsvState :=
  ⟨s.rows ++ [s.row ++ [s.field]], [], [], false⟩

/-- CSV quoting of a field body: double every double-quote character. -/
def csvEscapeQuotes (content : JStr) : JStr :=
  content.foldr (fun c acc =>
    if c = quoteChar then quoteChar :: quoteChar :: acc else c :: acc) []

/-- Witness CSV catalog: three rows, one with dairy. -/
def wCsv : JStr :=
  ("title,ingredients\nAlpha," ++ String.mk [quoteChar] ++ "banane, fraise" ++
    String.mk [quoteChar] ++ "\nBeta," ++ String.mk [quoteChar] ++
    "lait, avoine" ++ String.mk [quoteChar] ++ "\nGamma,kiwi").data

/-- The witness catalog built from `wCsv`. -/
def wCatalog : List Smoothies.SmoothieRecordInternal :=
  Smoothies.loadDataset wCsv

/-- Witness query: exclude the ingredient `Lait` (slug `lait`) and the
lactose preset. -/
def wOpts : Smoothies.QueryOptions :=
  { q := none, excludeIngredients := some ["Lait".data],
    excludePresets := some [.lactose], includeIds := none, sort := none,
    seed := none, offset := none, limit := none }

/-- The first page entry of the witness query (concrete by evaluation). -/
def wPair : Smoothies.SmoothieRecordInternal × Nat :=
  (Smoothies.pageOf wCatalog wOpts).getD 0 (dummyRecord, 0)

/-- Witness query options with a seed that trims to `s`. -/
def wOptsSeedA : Smoothies.QueryOptions :=
  { q := none, excludeIngredients := none, excludePresets := none,
    includeIds := none, sort := some .random, seed := some " s ".data,
    offset := none, limit := none }

/-- Witness query options with the already-trimmed seed `s`. -/
def wOptsSeedB : Smoothies.QueryOptions :=
  { q := none, excludeIngredients := none, excludePresets := none,
    includeIds := none, sort := some .random, seed := some "s".data,
    offset := none, limit := none }

/-- An all-default list item (used only as a `getD` fallback). -/
def dummyItem : Smoothies.SmoothieListItem :=
  { id := [], slug := [], title := [], imageUrl := none, hasImage := false,
    ingredients := [], portions := none, source := [], sourceLink := none,
    directionsPreview := none,
    tags := ⟨false, false, false, false, false, false, false⟩,
    popularityScore := 0, orderScore := 0 }

/-- The first returned item of the seeded witness query. -/
def wItem : Smoothies.SmoothieListItem :=
  (Smoothies.querySmoothies wCatalog wOptsSeedA).items.getD 0 dummyItem

/-- Witness query with page size 2 (to exercise several pages). -/
def wOptsPage : Smoothies.QueryOptions :=
  { q := none, excludeIngredients := none, excludePresets := none,
    includeIds := none, sort := none, seed := none, offset := none,
    limit := some 2 }

/-- The count stored for a slug in the frequency map (`None` when the slug
is absent). -/
def freqCount (m : List (JStr × JStr × Nat)) (slug : JStr) : Option Nat :=
  (Smoothies.freqGet m slug).map (fun meta => meta.2)

/-- Adding `k` occurrences to a (possibly absent) count. -/
def bumpCount : Option Nat → Nat → Option Nat
  | some c, k => some (c + k)
  | none, k => if 0 < k then some k else none

/-- Spec-side eligibility of an ingredient slug for the global frequency
map (the spec: stop-listed slugs and slugs shorter than 2 characters are
skipped). -/
def slugEligible (slug : JStr) : Bool :=
  !(decide (slug = []) || Smoothies.STOP_INGREDIENTS.contains slug ||
    decide (slug.length < 2))

/-- Spec-side global frequency: the number of ingredient occurrences with
the given slug across all records. -/
def specGlobalFrequency (items : List Smoothies.SmoothieRecordInternal)
    (slug : JStr) : Nat :=
  (items.map (fun r =>
    r.ingredients.countP (fun ing => decide (Smoothies.slugify ing = slug)))).sum

/-- Spec-side popularity score: the sum over the record's ingredients of
`min(globalFrequency[slug], 400)` (an absent — skipped — slug contributing
0), plus 40 if vegan, 25 if not lactose-flagged, 10 if it has an image. -/
def specPopularityScore (m : List (JStr × JStr × Nat))
    (r : Smoothies.SmoothieRecordInternal) : Nat :=
  (r.ingredients.map (fun ing =>
    match Smoothies.freqGet m (Smoothies.slugify ing) with
    | some meta => min meta.2 400
    | none => 0)).sum
  + (if r.tags.vegan then 40 else 0)
  + (if !r.tags.lactose then 25 else 0)
  + (if r.hasImage then 10 else 0)

/-- The capped score contribution of one frequency entry:
`min(count, 400)`, and 0 when the entry is absent. -/
def capFreq : Option (JStr × Nat) → Nat
  | some meta => min meta.2 400
  | none => 0

/-- Spec-side popularity score stated directly over the catalog: each
ingredient token contributes `min(globalFrequency[slug], 400)` when its
slug is eligible (not stop-listed, length at least 2) and 0 otherwise,
plus the vegan / lactose-free / image bonuses. -/
def specCatalogScore (items : List Smoothies.SmoothieRecordInternal)
    (r : Smoothies.SmoothieRecordInternal) : Nat :=
  (r.ingredients.map (fun ing =>
    if slugEligible (Smoothies.slugify ing) = true then
      min (specGlobalFrequency items (Smoothies.slugify ing)) 400
    else 0)).sum
  + (if r.tags.vegan then 40 else 0)
  + (if !r.tags.lactose then 25 else 0)
  + (if r.hasImage then 10 else 0)

/-- The first record of the witness catalog (concrete by evaluation). -/
def wRec5 : Smoothies.SmoothieRecordInternal :=
  (Smoothies.loadDataset wCsv).getD 0 dummyRecord

/-! Theorems: helper lemmas first, then one theorem per claim (with
witnesses for the theorems that carry hypotheses). -/

theorem getImageSuggestions_cacheKey (store : ImageSvc.Store) (now : ℤ)
    (params : ImageSvc.ImageSuggestionParams)
    (oracle : ImageSvc.ImageProvider → List ImageSvc.ImageSuggestion) :
    (ImageSvc.getImageSuggestions store now params oracle).1.cacheKey =
      ImageSvc.cacheKeyOf params := by
  cases h : ImageSvc.storeGet store (ImageSvc.cacheKeyOf params) with
  | none => simp only [ImageSvc.getImageSuggestions, h]
  | some c =>
    simp only [ImageSvc.getImageSuggestions, h]
    split <;> rfl

/-- Claim C9: for the title `"Smoothie banane fraise"` and the tags
`["banane", "fraise", "yaourt"]`, the image-query builder yields exactly
`"banana strawberry smoothie drink"` (banane and fraise translate,
yaourt and smoothie are stop-listed, and the literal smoothie/drink terms
are appended). -/
theorem image_query_example :
    ImageSvc.buildImageQuery (some "Smoothie banane fraise".data)
      (["banane", "fraise", "yaourt"].map String.data) =
      "banana strawberry smoothie drink".data := by
  decide

/-- Claim C10: the effective image-suggestion limit is 6 for an absent,
zero or NaN raw limit, otherwise the truncated value clamped into
`[1, 10]`; the clamped limit always lies in `[1, 10]`, and two requests
with the same title and tags whose raw limits clamp equal share one cache
key (hence one cache entry). -/
theorem image_limit_clamp :
    (ImageSvc.clampLimit none = 6) ∧
    (ImageSvc.clampLimit (some .nan) = 6) ∧
    (ImageSvc.clampLimit (some (.num 0)) = 6) ∧
    (∀ q : ℚ, q ≠ 0 →
      ImageSvc.clampLimit (some (.num q)) =
        (max 1 (min (10 : ℤ) (ImageSvc.jsTrunc q))).toNat) ∧
    (∀ raw, 1 ≤ ImageSvc.clampLimit raw ∧ ImageSvc.clampLimit raw ≤ 10) ∧
    (∀ store now p1 p2 oracle1 oracle2, p1.title = p2.title →
      p1.tags = p2.tags →
      ImageSvc.clampLimit p1.limit = ImageSvc.clampLimit p2.limit →
      (ImageSvc.getImageSuggestions store now p1 oracle1).1.cacheKey =
        (ImageSvc.getImageSuggestions store now p2 oracle2).1.cacheKey) := by
  refine ⟨by decide, by decide, by decide, ?_, ?_, ?_⟩
  · intro q hq
    simp [ImageSvc.clampLimit, hq, ImageSvc.MAX_LIMIT]
  · intro raw
    match raw with
    | none => exact ⟨by decide, by decide⟩
    | some .nan => exact ⟨by decide, by decide⟩
    | some (.num q) =>
      by_cases hq : q = 0
      · subst hq
        exact ⟨by decide, by decide⟩
      · simp only [ImageSvc.clampLimit, hq, if_false, ImageSvc.MAX_LIMIT]
        omega
  · intro store now p1 p2 oracle1 oracle2 ht htg hl
    rw [getImageSuggestions_cacheKey, getImageSuggestions_cacheKey]
    unfold ImageSvc.cacheKeyOf ImageSvc.queryOf ImageSvc.effTitle ImageSvc.effTags
    rw [ht, htg, hl]

/-- Witness for C10: the nonzero-rational clamp at `q = 7/2` (trunc 3) and
the shared cache key of the limit-12 and limit-99 requests. -/
theorem image_limit_clamp_witness :
    (ImageSvc.clampLimit (some (.num (7 / 2))) =
      (max 1 (min (10 : ℤ) (ImageSvc.jsTrunc (7 / 2)))).toNat) ∧
    ((ImageSvc.getImageSuggestions [] 0 wParamsA (fun _ => [])).1.cacheKey =
      (ImageSvc.getImageSuggestions [] 0 wParamsB (fun _ => [])).1.cacheKey) :=
  ⟨image_limit_clamp.2.2.2.1 (7 / 2) (by norm_num),
   image_limit_clamp.2.2.2.2.2 [] 0 wParamsA wParamsB (fun _ => []) (fun _ => [])
     rfl rfl (by decide)⟩

/-- Claim C7: the image-suggestion lookup reports a cache hit exactly when
a matching entry exists, its expiry lies strictly in the future, and no
forced refresh was requested; and on a hit the returned items are the
entry's items trimmed to the clamped limit.  In particular an expired
entry is never returned, and `forceRefresh` bypasses a live entry. -/
theorem image_cache_hit_iff :
    ∀ (store : ImageSvc.Store) (now : ℤ)
      (params : ImageSvc.ImageSuggestionParams)
      (oracle : ImageSvc.ImageProvider → List ImageSvc.ImageSuggestion),
      ((ImageSvc.getImageSuggestions store now params oracle).1.cacheHit = true ↔
        ∃ c, ImageSvc.storeGet store (ImageSvc.cacheKeyOf params) = some c ∧
          now < c.expiresAt ∧ params.forceRefresh = false) ∧
      (∀ c, ImageSvc.storeGet store (ImageSvc.cacheKeyOf params) = some c →
        now < c.expiresAt → params.forceRefresh = false →
        (ImageSvc.getImageSuggestions store now params oracle).1.items =
          c.items.take (ImageSvc.clampLimit params.limit)) := by
  intro store now params oracle
  constructor
  · cases h : ImageSvc.storeGet store (ImageSvc.cacheKeyOf params) with
    | none =>
      simp only [ImageSvc.getImageSuggestions, h, Bool.false_eq_true, false_iff]
      rintro ⟨c, hc, -, -⟩
      exact Option.noConfusion hc
    | some c =>
      simp only [ImageSvc.getImageSuggestions, h]
      by_cases hv : (decide (c.expiresAt > now) && !params.forceRefresh) = true
      · rw [if_pos hv]
        simp only [Bool.and_eq_true, decide_eq_true_eq,
          Bool.not_eq_true'] at hv
        exact iff_of_true rfl ⟨c, rfl, hv.1, hv.2⟩
      · rw [if_neg hv]
        apply iff_of_false (by simp)
        rintro ⟨c2, hc2, hexp, hforce⟩
        injection hc2 with hc2e
        subst hc2e
        apply hv
        simp [hexp, hforce]
  · intro c hc hexp hforce
    simp only [ImageSvc.getImageSuggestions, hc]
    rw [if_pos (by simp [hexp, hforce])]

/-- Witness for C7: with a live entry at the request's key and no forced
refresh, the call is a cache hit and returns the entry's items trimmed to
the clamped limit. -/
theorem image_cache_hit_iff_witness :
    ((ImageSvc.getImageSuggestions wStore 0 wParams (fun _ => [])).1.cacheHit
      = true) ∧
    ((ImageSvc.getImageSuggestions wStore 0 wParams (fun _ => [])).1.items =
      wEntry.items.take (ImageSvc.clampLimit wParams.limit)) :=
  ⟨(image_cache_hit_iff wStore 0 wParams (fun _ => [])).1.mpr
      ⟨wEntry, by decide, by decide, rfl⟩,
   (image_cache_hit_iff wStore 0 wParams (fun _ => [])).2 wEntry
      (by decide) (by decide) rfl⟩

theorem computeFlags_lactose_eq (t : List JStr) (raw : JStr) (d : List JStr) :
    (Smoothies.computeFlags t raw d).lactose =
      Smoothies.containsAny (Smoothies.flagHaystacks t raw d)
        Smoothies.DAIRY_TERMS := rfl

theorem computeFlags_vegan_eq (t : List JStr) (raw : JStr) (d : List JStr) :
    (Smoothies.computeFlags t raw d).vegan =
      !(Smoothies.containsAny (Smoothies.flagHaystacks t raw d)
          Smoothies.DAIRY_TERMS ||
        Smoothies.containsAny (Smoothies.flagHaystacks t raw d)
          Smoothies.NON_VEGAN_EXTRA_TERMS) := rfl

theorem rowToRecord_tags (row header : List JStr) (index : Nat)
    (r : Smoothies.SmoothieRecordInternal)
    (h : Smoothies.rowToRecord row header index = some r) :
    r.tags = Smoothies.computeFlags
      (Smoothies.parseIngredientTokens (Smoothies.getField header row "NER".data)
        (Smoothies.getField header row "ingredients".data))
      (Smoothies.getField header row "ingredients".data)
      (Smoothies.parseDirections (Smoothies.getField header row "directions".data)) := by
  simp only [Smoothies.rowToRecord] at h
  split at h
  · exact Option.noConfusion h
  · split at h
    · exact Option.noConfusion h
    · injection h with he
      subst he
      rfl

theorem rowToRecord_vegan_spec (row header : List JStr) (index : Nat)
    (r : Smoothies.SmoothieRecordInternal)
    (h : Smoothies.rowToRecord row header index = some r) :
    (r.tags.lactose = true → r.tags.vegan = false) ∧
    (r.tags.vegan = false ↔
      (Smoothies.containsAny
          (Smoothies.flagHaystacks
            (Smoothies.parseIngredientTokens
              (Smoothies.getField header row "NER".data)
              (Smoothies.getField header row "ingredients".data))
            (Smoothies.getField header row "ingredients".data)
            (Smoothies.parseDirections
              (Smoothies.getField header row "directions".data)))
          Smoothies.DAIRY_TERMS = true ∨
       Smoothies.containsAny
          (Smoothies.flagHaystacks
            (Smoothies.parseIngredientTokens
              (Smoothies.getField header row "NER".data)
              (Smoothies.getField header row "ingredients".data))
            (Smoothies.getField header row "ingredients".data)
            (Smoothies.parseDirections
              (Smoothies.getField header row "directions".data)))
          Smoothies.NON_VEGAN_EXTRA_TERMS = true)) := by
  have ht := rowToRecord_tags row header index r h
  rw [ht, computeFlags_lactose_eq, computeFlags_vegan_eq]
  cases hd : Smoothies.containsAny
      (Smoothies.flagHaystacks
        (Smoothies.parseIngredientTokens
          (Smoothies.getField header row "NER".data)
          (Smoothies.getField header row "ingredients".data))
        (Smoothies.getField header row "ingredients".data)
        (Smoothies.parseDirections
          (Smoothies.getField header row "directions".data)))
      Smoothies.DAIRY_TERMS <;>
    cases he : Smoothies.containsAny
        (Smoothies.flagHaystacks
          (Smoothies.parseIngredientTokens
            (Smoothies.getField header row "NER".data)
            (Smoothies.getField header row "ingredients".data))
          (Smoothies.getField header row "ingredients".data)
          (Smoothies.parseDirections
            (Smoothies.getField header row "directions".data)))
        Smoothies.NON_VEGAN_EXTRA_TERMS <;>
      simp

theorem mem_buildRawAux (header : List JStr) :
    ∀ (rows : List (List JStr)) (acc : List Smoothies.SmoothieRecordInternal)
      (r : Smoothies.SmoothieRecordInternal),
      r ∈ Smoothies.buildRawAux header rows acc →
      r ∈ acc ∨ ∃ row index, Smoothies.rowToRecord row header index = some r := by
  intro rows
  induction rows with
  | nil => exact fun acc r h => Or.inl h
  | cons row rest ih =>
    intro acc r h
    simp only [Smoothies.buildRawAux] at h
    cases hrec : Smoothies.rowToRecord row header acc.length with
    | some recipe =>
      rw [hrec] at h
      rcases ih _ _ h with hacc | hex
      · rcases List.mem_append.mp hacc with h1 | h2
        · exact Or.inl h1
        · simp only [List.mem_singleton] at h2
          subst h2
          exact Or.inr ⟨row, acc.length, hrec⟩
      · exact Or.inr hex
    | none =>
      rw [hrec] at h
      exact ih _ _ h

theorem mem_assignScores (m : List (JStr × JStr × Nat))
    (items : List Smoothies.SmoothieRecordInternal)
    (r : Smoothies.SmoothieRecordInternal)
    (h : r ∈ Smoothies.assignScores m items) :
    ∃ r0 ∈ items, r = { r0 with popularityScore := Smoothies.scoreOf m r0 } := by
  rcases List.mem_map.mp h with ⟨r0, hr0, he⟩
  exact ⟨r0, hr0, he.symm⟩

theorem mem_loadDataset (csv : JStr) (r : Smoothies.SmoothieRecordInternal)
    (h : r ∈ Smoothies.loadDataset csv) :
    ∃ row header index r0, Smoothies.rowToRecord row header index = some r0 ∧
      r = { r0 with popularityScore := r.popularityScore } := by
  simp only [Smoothies.loadDataset] at h
  split at h
  · exact absurd h (List.not_mem_nil r)
  · rcases mem_assignScores _ _ _ h with ⟨r0, hr0, he⟩
    rcases mem_buildRawAux _ _ _ _ hr0 with habs | ⟨row, index, hrec⟩
    · exact absurd habs (List.not_mem_nil r0)
    · refine ⟨row, _, index, r0, hrec, ?_⟩
      rw [he]

/-- Claim C3: a record built from a CSV row has `tags.vegan = false`
whenever `tags.lactose = true`; more precisely `tags.vegan` is false
exactly when a dairy keyword or an extra non-vegan keyword occurs in the
row's normalized ingredient/direction haystacks.  The lactose-implies-not-
vegan consequence also holds for every record of a built catalog (the
score pass leaves tags unchanged). -/
theorem record_vegan_classifier :
    (∀ (row header : List JStr) (index : Nat)
      (r : Smoothies.SmoothieRecordInternal),
      Smoothies.rowToRecord row header index = some r →
      ((r.tags.lactose = true → r.tags.vegan = false) ∧
       (r.tags.vegan = false ↔
         (Smoothies.containsAny
             (Smoothies.flagHaystacks
               (Smoothies.parseIngredientTokens
                 (Smoothies.getField header row "NER".data)
                 (Smoothies.getField header row "ingredients".data))
               (Smoothies.getField header row "ingredients".data)
               (Smoothies.parseDirections
                 (Smoothies.getField header row "directions".data)))
             Smoothies.DAIRY_TERMS = true ∨
          Smoothies.containsAny
             (Smoothies.flagHaystacks
               (Smoothies.parseIngredientTokens
                 (Smoothies.getField header row "NER".data)
                 (Smoothies.getField header row "ingredients".data))
               (Smoothies.getField header row "ingredients".data)
               (Smoothies.parseDirections
                 (Smoothies.getField header row "directions".data)))
             Smoothies.NON_VEGAN_EXTRA_TERMS = true)))) ∧
    (∀ (csv : JStr) (r : Smoothies.SmoothieRecordInternal),
      r ∈ Smoothies.loadDataset csv →
      r.tags.lactose = true → r.tags.vegan = false) := by
  constructor
  · exact rowToRecord_vegan_spec
  · intro csv r h hlac
    rcases mem_loadDataset csv r h with ⟨row, header, index, r0, hrec, he⟩
    have htags : r.tags = r0.tags := by rw [he]
    rw [htags] at hlac ⊢
    exact (rowToRecord_vegan_spec row header index r0 hrec).1 hlac

/-- Witness for C3: the `lait, avoine` row parses to a record with the
lactose flag set and the vegan flag cleared, and the dairy keyword is
indeed found. -/
theorem record_vegan_classifier_witness :
    (wRec.tags.lactose = true → wRec.tags.vegan = false) ∧
    (wRec.tags.vegan = false ↔
      (Smoothies.containsAny
          (Smoothies.flagHaystacks
            (Smoothies.parseIngredientTokens
              (Smoothies.getField wHeader wRow "NER".data)
              (Smoothies.getField wHeader wRow "ingredients".data))
            (Smoothies.getField wHeader wRow "ingredients".data)
            (Smoothies.parseDirections
              (Smoothies.getField wHeader wRow "directions".data)))
          Smoothies.DAIRY_TERMS = true ∨
       Smoothies.containsAny
          (Smoothies.flagHaystacks
            (Smoothies.parseIngredientTokens
              (Smoothies.getField wHeader wRow "NER".data)
              (Smoothies.getField wHeader wRow "ingredients".data))
            (Smoothies.getField wHeader wRow "ingredients".data)
            (Smoothies.parseDirections
              (Smoothies.getField wHeader wRow "directions".data)))
          Smoothies.NON_VEGAN_EXTRA_TERMS = true)) :=
  record_vegan_classifier.1 wRow wHeader 0 wRec (by decide)

theorem mem_uniqueAux :
    ∀ (l seen : List JStr) (x : JStr), x ∈ Smoothies.uniqueAux seen l → x ∈ l := by
  intro l
  induction l with
  | nil => intro seen x h; exact absurd h (List.not_mem_nil x)
  | cons v rest ih =>
    intro seen x h
    simp only [Smoothies.uniqueAux] at h
    split at h
    · exact List.mem_cons_of_mem v (ih _ _ h)
    · rcases List.mem_cons.mp h with he | ht
      · exact he ▸ List.mem_cons_self v rest
      · exact List.mem_cons_of_mem v (ih _ _ ht)

theorem uniqueAux_not_mem_seen :
    ∀ (l seen : List JStr) (x : JStr), x ∈ Smoothies.uniqueAux seen l → x ∉ seen := by
  intro l
  induction l with
  | nil => intro seen x h; exact absurd h (List.not_mem_nil x)
  | cons v rest ih =>
    intro seen x h
    simp only [Smoothies.uniqueAux] at h
    split at h
    · exact ih _ _ h
    · rcases List.mem_cons.mp h with he | ht
      · subst he
        intro hmem
        rename_i hc
        exact hc (by simpa using hmem)
      · intro hmem
        exact ih _ _ ht (List.mem_cons_of_mem v hmem)

theorem nodup_uniqueAux :
    ∀ (l seen : List JStr), (Smoothies.uniqueAux seen l).Nodup := by
  intro l
  induction l with
  | nil => intro seen; exact List.nodup_nil
  | cons v rest ih =>
    intro seen
    simp only [Smoothies.uniqueAux]
    split
    · exact ih _
    · refine List.Nodup.cons (fun hmem => ?_) (ih _)
      exact uniqueAux_not_mem_seen _ _ _ hmem (List.mem_cons_self v seen)

theorem extractQuotedItems_ne_nil (raw x : JStr)
    (h : x ∈ Smoothies.extractQuotedItems raw) : x ≠ [] := by
  unfold Smoothies.extractQuotedItems at h
  rcases List.mem_append.mp h with h1 | h1 <;>
    simpa using (List.mem_filter.mp h1).2

theorem parseIngredientTokens_nodup (ner raw : JStr) :
    (Smoothies.parseIngredientTokens ner raw).Nodup := by
  simp only [Smoothies.parseIngredientTokens, Smoothies.uniqueStrings]
  split
  · exact nodup_uniqueAux _ _
  · split
    · exact nodup_uniqueAux _ _
    · exact nodup_uniqueAux _ _

theorem parseIngredientTokens_no_blank (ner raw : JStr)
    (hner : Smoothies.nerCandidates ner = []) :
    ∀ t ∈ Smoothies.parseIngredientTokens ner raw, t ≠ [] := by
  intro t ht
  simp only [Smoothies.parseIngredientTokens, Smoothies.uniqueStrings, hner,
    List.length_nil, gt_iff_lt, Nat.lt_irrefl, if_false] at ht
  split at ht
  · exact extractQuotedItems_ne_nil raw t (mem_uniqueAux _ _ _ ht)
  · have hmem := mem_uniqueAux _ _ _ ht
    have hlen := (List.mem_filter.mp hmem).2
    simp only [decide_eq_true_eq] at hlen
    intro he
    rw [he] at hlen
    simp at hlen

theorem rowToRecord_ingredients (row header : List JStr) (index : Nat)
    (r : Smoothies.SmoothieRecordInternal)
    (h : Smoothies.rowToRecord row header index = some r) :
    r.ingredients = Smoothies.parseIngredientTokens
      (Smoothies.getField header row "NER".data)
      (Smoothies.getField header row "ingredients".data) := by
  simp only [Smoothies.rowToRecord] at h
  split at h
  · exact Option.noConfusion h
  · split at h
    · exact Option.noConfusion h
    · injection h with he
      subst he
      rfl

set_option maxHeartbeats 1600000 in
/-- Claim C6 counterexample: for the CSV input whose NER cell is `["«"]`,
the built catalog contains a record whose ingredient list is `[""]` — a
blank entry (the NER branch strips edge quote characters without
re-filtering blanks). -/
theorem ingredients_blank_cex :
    (Smoothies.loadDataset c6Csv).map (fun r => r.ingredients) =
      [[([] : JStr)]] := by
  decide

/-- Claim C6 (amended): the ingredient list of every built record contains
no duplicate entries; and whenever the NER branch is not taken (the NER
cell yields no candidates), it also contains no blank entries.  (A blank
entry can arise only from an NER candidate consisting entirely of quote
characters.) -/
theorem ingredients_nodup_no_blanks :
    ∀ (row header : List JStr) (index : Nat)
      (r : Smoothies.SmoothieRecordInternal),
      Smoothies.rowToRecord row header index = some r →
      r.ingredients.Nodup ∧
      (Smoothies.nerCandidates (Smoothies.getField header row "NER".data) = [] →
        ∀ t ∈ r.ingredients, t ≠ []) := by
  intro row header index r h
  rw [rowToRecord_ingredients row header index r h]
  exact ⟨parseIngredientTokens_nodup _ _, fun hner =>
    parseIngredientTokens_no_blank _ _ hner⟩

/-- Witness for the amended C6: the `lait, avoine` row has duplicate-free
ingredients and no blank entry. -/
theorem ingredients_nodup_no_blanks_witness :
    wRec.ingredients.Nodup ∧ ([] : JStr) ∉ wRec.ingredients := by
  have h := ingredients_nodup_no_blanks wRow wHeader 0 wRec (by decide)
  exact ⟨h.1, fun hmem => h.2 (by decide) [] hmem rfl⟩


theorem csvRun_nil (s : Smoothies.CsvState) : Smoothies.csvRun s [] = s :=
  Smoothies.csvRun.eq_1 s

theorem csvRun_one_t (rows : List (List JStr)) (row : List JStr)
    (field : JStr) (c : Char) :
    Smoothies.csvRun ⟨rows, row, field, true⟩ [c] =
      (if c = quoteChar then ⟨rows, row, field, false⟩
       else ⟨rows, row, field ++ [c], true⟩) := by
  simp only [Smoothies.csvRun]

theorem csvRun_one_f (rows : List (List JStr)) (row : List JStr)
    (field : JStr) (c : Char) :
    Smoothies.csvRun ⟨rows, row, field, false⟩ [c] =
      (if c = quoteChar then ⟨rows, row, field, true⟩
       else if c = ',' then ⟨rows, row ++ [field], [], false⟩
       else if c = '\n' then ⟨rows ++ [row ++ [field]], [], [], false⟩
       else if c = '\r' then ⟨rows ++ [row ++ [field]], [], [], false⟩
       else ⟨rows, row, field ++ [c], false⟩) := by
  simp only [Smoothies.csvRun]

theorem csvRun_two (rows : List (List JStr)) (row : List JStr) (field : JStr)
    (q : Bool) (c d : Char) (rest : JStr) :
    Smoothies.csvRun ⟨rows, row, field, q⟩ (c :: d :: rest) =
      (if q = true ∧ c = quoteChar ∧ d = quoteChar then
        Smoothies.csvRun ⟨rows, row, field ++ [quoteChar], true⟩ rest
      else if q = false ∧ c = '\r' ∧ d = '\n' then
        Smoothies.csvRun ⟨rows ++ [row ++ [field]], [], [], false⟩ rest
      else
        Smoothies.csvRun (Smoothies.csvRun ⟨rows, row, field, q⟩ [c])
          (d :: rest)) := by
  cases q <;> simp only [Smoothies.csvRun] <;> split_ifs <;>
    first
      | rfl
      | simp_all [show ¬(('\x0d' : Char) = quoteChar) from by decide]

theorem getLast?_cons_some (c : Char) (l : JStr) (x : Char)
    (h : l.getLast? = some x) : (c :: l).getLast? = some x := by
  cases l with
  | nil => simp at h
  | cons d t => rw [List.getLast?_cons_cons]; exact h

theorem csvRun_append :
    ∀ (n : Nat) (xs ys : JStr) (s : Smoothies.CsvState), xs.length ≤ n →
      ys.head? ≠ some quoteChar →
      (xs.getLast? = some '\r' → ys.head? ≠ some '\n') →
      Smoothies.csvRun s (xs ++ ys) =
        Smoothies.csvRun (Smoothies.csvRun s xs) ys := by
  intro n
  induction n with
  | zero =>
    intro xs ys s hlen _ _
    have hx : xs = [] := List.eq_nil_of_length_eq_zero (Nat.le_zero.mp hlen)
    subst hx
    rw [List.nil_append, csvRun_nil]
  | succ n ih =>
    intro xs ys s hlen hq hr
    obtain ⟨rows, row, field, q⟩ := s
    match xs with
    | [] => rw [List.nil_append, csvRun_nil]
    | [c] =>
      cases ys with
      | nil => rw [List.append_nil, csvRun_nil]
      | cons e ys2 =>
        have he_q : ¬ e = quoteChar := fun h => hq (by rw [h]; rfl)
        show Smoothies.csvRun _ (c :: e :: ys2) = _
        rw [csvRun_two]
        rw [if_neg (fun hcon => he_q hcon.2.2)]
        rw [if_neg (fun hcon => hr (by rw [hcon.2.1]; rfl) (by rw [hcon.2.2]; rfl))]
    | c :: d :: xs2 =>
      have hlen2 : xs2.length ≤ n := by
        simp only [List.length_cons] at hlen
        omega
      have hlen1 : (d :: xs2).length ≤ n := by
        simp only [List.length_cons] at hlen ⊢
        omega
      have hr1 : (d :: xs2).getLast? = some '\r' → ys.head? ≠ some '\n' := by
        intro hl
        exact hr (getLast?_cons_some c _ _ hl)
      have hr2 : xs2.getLast? = some '\r' → ys.head? ≠ some '\n' := by
        intro hl
        exact hr1 (getLast?_cons_some d _ _ hl)
      show Smoothies.csvRun _ (c :: d :: (xs2 ++ ys)) = _
      rw [csvRun_two, csvRun_two]
      split_ifs
      · exact ih _ _ _ hlen2 hq hr2
      · exact ih _ _ _ hlen2 hq hr2
      · exact ih (d :: xs2) ys _ hlen1 hq hr1

theorem csvRun_newline (s : Smoothies.CsvState) (hs : s.inQuotes = false)
    (b : JStr) :
    Smoothies.csvRun s ('\n' :: b) = Smoothies.csvRun (csvBoundary s) b := by
  obtain ⟨rows, row, field, q⟩ := s
  simp only at hs
  subst hs
  cases b with
  | nil =>
    rw [csvRun_one_f, if_neg (by decide), if_neg (by decide), if_pos rfl]
    rfl
  | cons e b2 =>
    rw [csvRun_two,
      if_neg (by rintro ⟨hcon, -⟩; exact Bool.noConfusion hcon),
      if_neg (by rintro ⟨-, hcon, -⟩; exact absurd hcon (by decide)),
      csvRun_one_f, if_neg (by decide), if_neg (by decide), if_pos rfl]
    rfl

theorem csvRun_crlf (s : Smoothies.CsvState) (hs : s.inQuotes = false)
    (b : JStr) :
    Smoothies.csvRun s ('\r' :: '\n' :: b) =
      Smoothies.csvRun (csvBoundary s) b := by
  obtain ⟨rows, row, field, q⟩ := s
  simp only at hs
  subst hs
  rw [csvRun_two,
    if_neg (by rintro ⟨hcon, -⟩; exact Bool.noConfusion hcon),
    if_pos ⟨rfl, rfl, rfl⟩]
  rfl

theorem csvRun_cr (s : Smoothies.CsvState) (hs : s.inQuotes = false)
    (b : JStr) (hb : b.head? ≠ some '\n') :
    Smoothies.csvRun s ('\r' :: b) = Smoothies.csvRun (csvBoundary s) b := by
  obtain ⟨rows, row, field, q⟩ := s
  simp only at hs
  subst hs
  cases b with
  | nil =>
    rw [csvRun_one_f, if_neg (by decide), if_neg (by decide),
      if_neg (by decide), if_pos rfl]
    rfl
  | cons e b2 =>
    have he : ¬ e = '\n' := fun h => hb (by rw [h]; rfl)
    rw [csvRun_two,
      if_neg (by rintro ⟨hcon, -⟩; exact Bool.noConfusion hcon),
      if_neg (by rintro ⟨-, -, hcon⟩; exact he hcon),
      csvRun_one_f, if_neg (by decide), if_neg (by decide),
      if_neg (by decide), if_pos rfl]
    rfl

theorem csvRun_escaped (content : JStr) :
    ∀ (rows : List (List JStr)) (row : List JStr) (field : JStr),
      Smoothies.csvRun ⟨rows, row, field, true⟩
          (csvEscapeQuotes content ++ [quoteChar]) =
        ⟨rows, row, field ++ content, false⟩ := by
  induction content with
  | nil =>
    intro rows row field
    show Smoothies.csvRun _ [quoteChar] = _
    rw [csvRun_one_t, if_pos rfl]
    simp
  | cons c t ih =>
    intro rows row field
    by_cases hc : c = quoteChar
    · subst hc
      have hesc : csvEscapeQuotes (quoteChar :: t) =
          quoteChar :: quoteChar :: csvEscapeQuotes t := by
        simp [csvEscapeQuotes, List.foldr_cons]
      rw [hesc]
      simp only [List.cons_append]
      rw [csvRun_two, if_pos ⟨rfl, rfl, rfl⟩, ih rows row (field ++ [quoteChar])]
      simp
    · have hesc : csvEscapeQuotes (c :: t) = c :: csvEscapeQuotes t := by
        simp only [csvEscapeQuotes, List.foldr_cons, if_neg hc]
      rw [hesc]
      simp only [List.cons_append]
      obtain ⟨d, L, hdl⟩ : ∃ d L, csvEscapeQuotes t ++ [quoteChar] = d :: L := by
        cases csvEscapeQuotes t with
        | nil => exact ⟨_, _, rfl⟩
        | cons x xs => exact ⟨_, _, rfl⟩
      rw [hdl, csvRun_two,
        if_neg (by rintro ⟨-, hcon, -⟩; exact hc hcon),
        if_neg (by rintro ⟨hcon, -⟩; exact Bool.noConfusion hcon),
        csvRun_one_t, if_neg hc, ← hdl, ih rows row (field ++ [c])]
      simp

theorem stripBom_append_cons (a : JStr) (c : Char) (rest : JStr)
    (hc : ¬ c.toNat = 0xfeff) :
    Smoothies.stripBom (a ++ c :: rest) = Smoothies.stripBom a ++ c :: rest := by
  cases a with
  | nil => simp only [List.nil_append, Smoothies.stripBom, if_neg hc]
  | cons x xs =>
    by_cases hx : x.toNat = 0xfeff <;>
      simp only [List.cons_append, Smoothies.stripBom, if_pos, if_neg, hx,
        if_true, if_false]

/-- Claim C8: the CSV tokenizer (a) decodes a quoted field with doubled
quotes to its content — covering commas, newlines and literal quotes
inside quoted fields; (b) treats `\r\n`, `\n` and `\r` alike as one row
boundary (provided the preceding text leaves the parser outside quotes,
does not itself end in a pending `\r`, and a bare `\r` is not followed by
`\n`); (c) strips a leading byte-order mark; and (d) emits the trailing
row of an input with no final newline: appending `\n` does not change the
parse.  The parser is a total function by construction, so no input (in
particular no malformed quoting) can make it throw. -/
theorem csv_tokenizer_spec :
    (∀ content : JStr, content ≠ [] →
      Smoothies.parseCsvRows (quoteChar :: (csvEscapeQuotes content ++ [quoteChar])) =
        [[content]]) ∧
    (∀ a b : JStr,
      (Smoothies.csvRun Smoothies.csvInit (Smoothies.stripBom a)).inQuotes = false →
      (Smoothies.stripBom a).getLast? ≠ some '\r' →
      b.head? ≠ some '\n' →
      (Smoothies.parseCsvRows (a ++ '\r' :: '\n' :: b) =
          Smoothies.parseCsvRows (a ++ '\n' :: b) ∧
        Smoothies.parseCsvRows (a ++ '\r' :: b) =
          Smoothies.parseCsvRows (a ++ '\n' :: b))) ∧
    (∀ text : JStr, text.head? ≠ some '﻿' →
      Smoothies.parseCsvRows ('﻿' :: text) = Smoothies.parseCsvRows text) ∧
    (∀ text : JStr,
      (Smoothies.csvRun Smoothies.csvInit (Smoothies.stripBom text)).inQuotes = false →
      (Smoothies.stripBom text).getLast? ≠ some '\r' →
      ((Smoothies.csvRun Smoothies.csvInit (Smoothies.stripBom text)).field ≠ [] ∨
        (Smoothies.csvRun Smoothies.csvInit (Smoothies.stripBom text)).row ≠ []) →
      Smoothies.parseCsvRows (text ++ ['\n']) = Smoothies.parseCsvRows text) := by
  refine ⟨?_, ?_, ?_, ?_⟩
  · intro content hc
    simp only [Smoothies.parseCsvRows, Smoothies.stripBom, Smoothies.csvInit,
      if_neg (show ¬ quoteChar.toNat = 0xfeff from by decide)]
    obtain ⟨d, L, hdl⟩ : ∃ d L, csvEscapeQuotes content ++ [quoteChar] = d :: L := by
      cases csvEscapeQuotes content with
      | nil => exact ⟨_, _, rfl⟩
      | cons x xs => exact ⟨_, _, rfl⟩
    rw [hdl, csvRun_two,
      if_neg (show ¬(false = true ∧ quoteChar = quoteChar ∧ d = quoteChar) from
        by rintro ⟨hcon, -⟩; exact absurd hcon (by decide)),
      if_neg (show ¬(false = false ∧ quoteChar = '\x0d' ∧ d = '\n') from
        by rintro ⟨-, hcon, -⟩; exact absurd hcon (by decide)),
      csvRun_one_f, if_pos rfl, ← hdl, csvRun_escaped]
    have hpos : 0 < content.length := List.length_pos.mpr hc
    simp [hpos]
  · intro a b hq hlast hb
    have hkey : ∀ (c : Char) (rest : JStr), ¬ c.toNat = 0xfeff →
        c ≠ quoteChar →
        ((Smoothies.stripBom a).getLast? = some '\r' →
          (c :: rest).head? ≠ some '\n') →
        Smoothies.csvRun Smoothies.csvInit (Smoothies.stripBom (a ++ c :: rest)) =
          Smoothies.csvRun
            (Smoothies.csvRun Smoothies.csvInit (Smoothies.stripBom a))
            (c :: rest) := by
      intro c rest hcf hcq hcr
      rw [stripBom_append_cons a c rest hcf]
      exact csvRun_append (Smoothies.stripBom a).length _ _ _ le_rfl
        (fun h => hcq (Option.some.inj h)) hcr
    have h1 : Smoothies.csvRun Smoothies.csvInit
        (Smoothies.stripBom (a ++ '\r' :: '\n' :: b)) =
        Smoothies.csvRun
          (csvBoundary (Smoothies.csvRun Smoothies.csvInit (Smoothies.stripBom a)))
          b := by
      rw [hkey '\r' ('\n' :: b) (by decide) (by decide)
        (fun _ h => absurd (Option.some.inj h) (by decide)),
        csvRun_crlf _ hq]
    have h2 : Smoothies.csvRun Smoothies.csvInit
        (Smoothies.stripBom (a ++ '\n' :: b)) =
        Smoothies.csvRun
          (csvBoundary (Smoothies.csvRun Smoothies.csvInit (Smoothies.stripBom a)))
          b := by
      rw [hkey '\n' b (by decide) (by decide) (fun hl => absurd hl hlast),
        csvRun_newline _ hq]
    have h3 : Smoothies.csvRun Smoothies.csvInit
        (Smoothies.stripBom (a ++ '\r' :: b)) =
        Smoothies.csvRun
          (csvBoundary (Smoothies.csvRun Smoothies.csvInit (Smoothies.stripBom a)))
          b := by
      rw [hkey '\r' b (by decide) (by decide)
        (fun _ h => absurd (Option.some.inj h) (by decide)),
        csvRun_cr _ hq _ hb]
    constructor
    · simp only [Smoothies.parseCsvRows, h1, h2]
    · simp only [Smoothies.parseCsvRows, h3, h2]
  · intro text hfe
    have h1 : Smoothies.stripBom ('﻿' :: text) = text := by
      simp only [Smoothies.stripBom, if_pos (show ('﻿' : Char).toNat = 0xfeff from by decide)]
    have h2 : Smoothies.stripBom text = text := by
      cases text with
      | nil => rfl
      | cons c rest =>
        simp only [Smoothies.stripBom]
        rw [if_neg (fun h => hfe (by
          have hc : c = '﻿' := by
            rw [← Char.ofNat_toNat c, h]
          rw [hc]
          rfl))]
    simp only [Smoothies.parseCsvRows, h1, h2]
  · intro text hqs hlast hrow
    have h1 : Smoothies.csvRun Smoothies.csvInit
        (Smoothies.stripBom (text ++ ['\n'])) =
        csvBoundary (Smoothies.csvRun Smoothies.csvInit (Smoothies.stripBom text)) := by
      rw [stripBom_append_cons text '\n' [] (by decide),
        csvRun_append (Smoothies.stripBom text).length _ _ _ le_rfl
          (by decide)
          (fun hl => absurd hl hlast),
        csvRun_newline _ hqs, csvRun_nil]
    simp only [Smoothies.parseCsvRows, h1]
    have hcondB : ((csvBoundary (Smoothies.csvRun Smoothies.csvInit
        (Smoothies.stripBom text))).field.length > 0 ||
        (csvBoundary (Smoothies.csvRun Smoothies.csvInit
          (Smoothies.stripBom text))).row.length > 0) = false := by
      simp [csvBoundary]
    have hcondT : ((Smoothies.csvRun Smoothies.csvInit
        (Smoothies.stripBom text)).field.length > 0 ||
        (Smoothies.csvRun Smoothies.csvInit
          (Smoothies.stripBom text)).row.length > 0) = true := by
      rcases hrow with hf | hw
      · simp [List.length_pos, hf]
      · simp [List.length_pos, hw]
    rw [hcondB, hcondT]
    simp [csvBoundary]

/-- Witness for C8: each conjunct applied at concrete inputs — the quoted
field `a,b<newline>c`, the texts `x`/`y` around each newline style, a
BOM-prefixed `z`, and the no-final-newline input `p,q`. -/
theorem csv_tokenizer_spec_witness :
    (Smoothies.parseCsvRows
        (quoteChar :: (csvEscapeQuotes "a,b\nc\"d".data ++ [quoteChar])) =
      [["a,b\nc\"d".data]]) ∧
    (Smoothies.parseCsvRows ("x".data ++ '\r' :: '\n' :: "y".data) =
        Smoothies.parseCsvRows ("x".data ++ '\n' :: "y".data) ∧
      Smoothies.parseCsvRows ("x".data ++ '\r' :: "y".data) =
        Smoothies.parseCsvRows ("x".data ++ '\n' :: "y".data)) ∧
    (Smoothies.parseCsvRows ('﻿' :: "z".data) =
      Smoothies.parseCsvRows "z".data) ∧
    (Smoothies.parseCsvRows ("p,q".data ++ ['\n']) =
      Smoothies.parseCsvRows "p,q".data) :=
  ⟨csv_tokenizer_spec.1 "a,b\nc\"d".data (by decide),
   csv_tokenizer_spec.2.1 "x".data "y".data (by decide) (by decide) (by decide),
   csv_tokenizer_spec.2.2.1 "z".data (by decide),
   csv_tokenizer_spec.2.2.2 "p,q".data (by decide) (by decide)
     (Or.inl (by decide))⟩

theorem mem_filteredItems (cache : List Smoothies.SmoothieRecordInternal)
    (o : Smoothies.QueryOptions) (item : Smoothies.SmoothieRecordInternal)
    (h : item ∈ Smoothies.filteredItems cache o) :
    (∀ s ∈ item.ingredientSlugs,
      ((Smoothies.effExcludeSlugs o).contains s) = false) ∧
    (∀ k ∈ Smoothies.effExcludePresets o,
      Smoothies.matchesPreset item k = false) := by
  simp only [Smoothies.filteredItems] at h
  have hpre : ∀ k ∈ Smoothies.effExcludePresets o,
      Smoothies.matchesPreset item k = false := by
    split at h
    · intro k hk
      have hall := (List.mem_filter.mp h).2
      simp only [List.all_eq_true, Bool.not_eq_true'] at hall
      exact hall k hk
    · rename_i hemp
      rw [not_ne_iff.mp hemp]
      intro k hk
      exact absurd hk (List.not_mem_nil k)
  have h3 : item ∈
      (if Smoothies.effExcludeSlugs o ≠ [] then
        (if Smoothies.effSearchTerms o ≠ [] then
          (if Smoothies.effIncludeIds o ≠ [] then
            cache.filter (fun it => (Smoothies.effIncludeIds o).contains it.id)
          else cache).filter (fun it =>
            (Smoothies.effSearchTerms o).all
              (fun term => Smoothies.hasInfix it.searchBlob term))
        else
          (if Smoothies.effIncludeIds o ≠ [] then
            cache.filter (fun it => (Smoothies.effIncludeIds o).contains it.id)
          else cache)).filter (fun it =>
          !(it.ingredientSlugs.any (fun s =>
            (Smoothies.effExcludeSlugs o).contains s)))
      else
        (if Smoothies.effSearchTerms o ≠ [] then
          (if Smoothies.effIncludeIds o ≠ [] then
            cache.filter (fun it => (Smoothies.effIncludeIds o).contains it.id)
          else cache).filter (fun it =>
            (Smoothies.effSearchTerms o).all
              (fun term => Smoothies.hasInfix it.searchBlob term))
        else
          (if Smoothies.effIncludeIds o ≠ [] then
            cache.filter (fun it => (Smoothies.effIncludeIds o).contains it.id)
          else cache))) := by
    split at h
    · exact List.mem_of_mem_filter h
    · exact h
  refine ⟨?_, hpre⟩
  split at h3
  · have hany := (List.mem_filter.mp h3).2
    simp only [Bool.not_eq_true'] at hany
    intro s hs
    have := List.any_eq_false.mp hany s hs
    simpa using this
  · rename_i hemp
    rw [not_ne_iff.mp hemp]
    intro s hs
    rfl

theorem mem_pageOf_filtered (cache : List Smoothies.SmoothieRecordInternal)
    (o : Smoothies.QueryOptions) (p : Smoothies.SmoothieRecordInternal × Nat)
    (h : p ∈ Smoothies.pageOf cache o) :
    p.1 ∈ Smoothies.filteredItems cache o ∧
      p.2 = (if Smoothies.effSort o = .random then
        Smoothies.randomOrderScore (Smoothies.effSeed o) p.1.id
      else p.1.popularityScore) := by
  have h1 : p ∈ Smoothies.sortedDecorated cache o :=
    List.mem_of_mem_drop (List.mem_of_mem_take h)
  have h2 : p ∈ (Smoothies.filteredItems cache o).map (Smoothies.decorate o) :=
    (List.Perm.mem_iff (List.mergeSort_perm _ _)).mp h1
  rcases List.mem_map.mp h2 with ⟨item, hitem, he⟩
  have hp1 : p.1 = item := by rw [← he]; rfl
  constructor
  · rw [hp1]; exact hitem
  · rw [← he]
    rfl

/-- Claim C1: the items returned by `querySmoothies` are exactly the
projected page slice, and every record on the page passes both exclusion
filters: none of its ingredient slugs is in the slugified excluded set,
and it matches none of the excluded presets (`matchesPreset` encodes the
vegan/other-flag semantics). -/
theorem query_exclusion_filters :
    ∀ (cache : List Smoothies.SmoothieRecordInternal)
      (o : Smoothies.QueryOptions),
      ((Smoothies.querySmoothies cache o).items =
        (Smoothies.pageOf cache o).map
          (fun p => Smoothies.toListItem p.1 p.2)) ∧
      ∀ p ∈ Smoothies.pageOf cache o,
        (∀ s ∈ p.1.ingredientSlugs,
          ((Smoothies.effExcludeSlugs o).contains s) = false) ∧
        (∀ k ∈ Smoothies.effExcludePresets o,
          Smoothies.matchesPreset p.1 k = false) := by
  intro cache o
  refine ⟨rfl, fun p hp => ?_⟩
  exact mem_filteredItems cache o p.1 (mem_pageOf_filtered cache o p hp).1

unseal List.mergeSort List.merge in
/-- Witness for C1: on the witness catalog with `Lait` and the lactose
preset excluded, the first page entry carries no excluded slug and does
not match the excluded preset. -/
theorem query_exclusion_filters_witness :
    ((Smoothies.querySmoothies wCatalog wOpts).items =
      (Smoothies.pageOf wCatalog wOpts).map
        (fun p => Smoothies.toListItem p.1 p.2)) ∧
    ((Smoothies.effExcludeSlugs wOpts).contains
      (wPair.1.ingredientSlugs.getD 0 [])) = false ∧
    Smoothies.matchesPreset wPair.1 .lactose = false := by
  have h := query_exclusion_filters wCatalog wOpts
  refine ⟨h.1, ?_, ?_⟩
  · exact (h.2 wPair (by decide)).1 (wPair.1.ingredientSlugs.getD 0 [])
      (by decide)
  · exact (h.2 wPair (by decide)).2 .lactose (by decide)

/-- Claim C4: with the random sort mode, the ordering depends only on the
effective seed and the filtered record set — two calls agreeing on those
(and on offset/limit) return identical responses — and every returned
item's order key is the 32-bit FNV-1a-style hash of `seed:id`. -/
theorem random_sort_deterministic :
    ∀ (cache cache' : List Smoothies.SmoothieRecordInternal)
      (o o' : Smoothies.QueryOptions),
      Smoothies.effSort o = .random → Smoothies.effSort o' = .random →
      Smoothies.effSeed o = Smoothies.effSeed o' →
      Smoothies.filteredItems cache o = Smoothies.filteredItems cache' o' →
      Smoothies.effOffset o = Smoothies.effOffset o' →
      Smoothies.effLimit o = Smoothies.effLimit o' →
      (Smoothies.querySmoothies cache o = Smoothies.querySmoothies cache' o' ∧
       ∀ it ∈ (Smoothies.querySmoothies cache o).items,
         it.orderScore =
           Smoothies.randomOrderScore (Smoothies.effSeed o) it.id) := by
  intro cache cache' o o' hs hs' hseed hfilt hoff hlim
  have hdec : Smoothies.decorate o = Smoothies.decorate o' := by
    funext item
    simp [Smoothies.decorate, hs, hs', hseed]
  have hcmp : Smoothies.cmpFor o = Smoothies.cmpFor o' := by
    funext a b
    simp [Smoothies.cmpFor, hs, hs']
  have hsorted : Smoothies.sortedDecorated cache o =
      Smoothies.sortedDecorated cache' o' := by
    simp only [Smoothies.sortedDecorated, hfilt, hdec, hcmp]
  constructor
  · simp only [Smoothies.querySmoothies, Smoothies.pageOf, hsorted, hoff, hlim]
  · intro it hit
    have hit2 : it ∈ (Smoothies.pageOf cache o).map
        (fun p => Smoothies.toListItem p.1 p.2) := hit
    rcases List.mem_map.mp hit2 with ⟨p, hp, he⟩
    have hscore := (mem_pageOf_filtered cache o p hp).2
    rw [hs, if_pos rfl] at hscore
    rw [← he]
    exact hscore

unseal List.mergeSort List.merge in
/-- Witness for C4: the seeds `" s "` and `"s"` trim to the same effective
seed, so the two queries agree, and the first returned item's order key is
the hash of `s:id`. -/
theorem random_sort_deterministic_witness :
    (Smoothies.querySmoothies wCatalog wOptsSeedA =
      Smoothies.querySmoothies wCatalog wOptsSeedB) ∧
    wItem.orderScore =
      Smoothies.randomOrderScore (Smoothies.effSeed wOptsSeedA) wItem.id := by
  have h := random_sort_deterministic wCatalog wCatalog wOptsSeedA wOptsSeedB
    rfl rfl (by decide) rfl rfl rfl
  exact ⟨h.1, h.2 wItem (by decide)⟩

theorem sortedDecorated_setOffset (cache : List Smoothies.SmoothieRecordInternal)
    (o : Smoothies.QueryOptions) (n : Nat) :
    Smoothies.sortedDecorated cache (Smoothies.setOffset o n) =
      Smoothies.sortedDecorated cache o := by
  obtain ⟨q, e1, e2, i1, s1, s2, off, lim⟩ := o
  rfl

theorem effLimit_setOffset (o : Smoothies.QueryOptions) (n : Nat) :
    Smoothies.effLimit (Smoothies.setOffset o n) = Smoothies.effLimit o := by
  obtain ⟨q, e1, e2, i1, s1, s2, off, lim⟩ := o
  rfl

theorem effOffset_setOffset (o : Smoothies.QueryOptions) (n : Nat) :
    Smoothies.effOffset (Smoothies.setOffset o n) = n := by
  obtain ⟨q, e1, e2, i1, s1, s2, off, lim⟩ := o
  simp only [Smoothies.setOffset, Smoothies.effOffset, Option.getD_some]
  rw [max_eq_right (Int.natCast_nonneg n), Int.toNat_natCast]

theorem one_le_effLimit (o : Smoothies.QueryOptions) :
    1 ≤ Smoothies.effLimit o := by
  simp only [Smoothies.effLimit, Smoothies.clampLimit]
  match o.limit with
  | none => decide
  | some z =>
    dsimp only
    by_cases hz : z = 0
    · rw [if_pos hz]
      decide
    · rw [if_neg hz]
      have h1 : (1 : ℤ) ≤ max 1 ((Smoothies.MAX_LIMIT : ℤ) ⊓ z) :=
        le_max_left _ _
      omega

theorem take_append_drop_lenTake {α : Type} (X : List α) (n : Nat) :
    X.take n ++ X.drop ((X.take n).length) = X := by
  rcases Nat.le_total n X.length with hle | hge
  · rw [List.length_take, Nat.min_eq_left hle, List.take_append_drop]
  · rw [List.length_take, Nat.min_eq_right hge, List.take_of_length_le hge,
      List.drop_length, List.append_nil]

theorem collectPages_eq (cache : List Smoothies.SmoothieRecordInternal)
    (o : Smoothies.QueryOptions) :
    ∀ (fuel off : Nat),
      (Smoothies.sortedDecorated cache o).length - off < fuel →
      Smoothies.collectPages cache o fuel off =
        ((Smoothies.sortedDecorated cache o).drop off).map
          (fun p => Smoothies.toListItem p.1 p.2) := by
  intro fuel
  induction fuel with
  | zero => exact fun off h => absurd h (Nat.not_lt_zero _)
  | succ fuel ih =>
    intro off h
    simp only [Smoothies.collectPages, Smoothies.querySmoothies,
      Smoothies.pageOf, sortedDecorated_setOffset, effLimit_setOffset,
      effOffset_setOffset]
    set L := Smoothies.sortedDecorated cache o with hL
    set lim := Smoothies.effLimit o with hlim
    set page := (L.drop off).take lim with hpage
    have hplen : page.length = min lim (L.length - off) := by
      rw [hpage, List.length_take, List.length_drop]
    by_cases hmore : off + (page.map
        (fun p => Smoothies.toListItem p.1 p.2)).length < L.length
    · rw [if_pos hmore]
      dsimp only
      rw [List.length_map] at hmore ⊢
      have hpos : 1 ≤ page.length := by
        have hlim1 : 1 ≤ lim := one_le_effLimit o
        rw [hplen]
        omega
      have hrec : L.length - (off + page.length) < fuel := by
        omega
      rw [ih (off + page.length) hrec]
      rw [← List.map_append]
      congr 1
      have hdd : L.drop (off + page.length) =
          (L.drop off).drop page.length := by
        rw [List.drop_drop, Nat.add_comm]
      rw [hdd, hpage]
      have := take_append_drop_lenTake (L.drop off) lim
      rw [List.length_take, List.length_drop] at this
      rw [hplen]
      exact this
    · rw [if_neg hmore]
      rw [List.length_map] at hmore
      have hfull : lim ≥ L.length - off := by
        rw [hplen] at hmore
        omega
      rw [List.append_nil, hpage,
        List.take_of_length_le (by rw [List.length_drop]; exact hfull)]

/-- Claim C2: concatenating the pages obtained by starting at offset 0 and
following `nextOffset` until `null` yields exactly the full filtered,
ordered result list (whose underlying records are a permutation of the
filtered set — each matching record once); and every response's
`nextOffset` is `offset + items.length` when more records remain, else
`null`. -/
theorem pagination_exhaustive :
    (∀ (cache : List Smoothies.SmoothieRecordInternal)
      (o : Smoothies.QueryOptions) (fuel : Nat),
      (Smoothies.sortedDecorated cache o).length < fuel →
      Smoothies.collectPages cache o fuel 0 =
        (Smoothies.sortedDecorated cache o).map
          (fun p => Smoothies.toListItem p.1 p.2)) ∧
    (∀ (cache : List Smoothies.SmoothieRecordInternal)
      (o : Smoothies.QueryOptions),
      ((Smoothies.sortedDecorated cache o).map Prod.fst).Perm
        (Smoothies.filteredItems cache o)) ∧
    (∀ (cache : List Smoothies.SmoothieRecordInternal)
      (o : Smoothies.QueryOptions) (off : Nat),
      (Smoothies.querySmoothies cache (Smoothies.setOffset o off)).nextOffset =
        (if off + (Smoothies.querySmoothies cache
            (Smoothies.setOffset o off)).items.length <
            (Smoothies.querySmoothies cache (Smoothies.setOffset o off)).total
        then some (off + (Smoothies.querySmoothies cache
            (Smoothies.setOffset o off)).items.length)
        else none)) := by
  refine ⟨?_, ?_, ?_⟩
  · intro cache o fuel hfuel
    rw [collectPages_eq cache o fuel 0 (by omega), List.drop_zero]
  · intro cache o
    have hperm : (Smoothies.sortedDecorated cache o).Perm
        ((Smoothies.filteredItems cache o).map (Smoothies.decorate o)) :=
      List.mergeSort_perm _ _
    have := hperm.map Prod.fst
    rw [List.map_map] at this
    have hid : Prod.fst ∘ Smoothies.decorate o = id := by
      funext item
      rfl
    rw [hid, List.map_id] at this
    exact this
  · intro cache o off
    simp only [Smoothies.querySmoothies, Smoothies.pageOf,
      sortedDecorated_setOffset, effLimit_setOffset, effOffset_setOffset]

unseal List.mergeSort List.merge in
/-- Witness for C2: with page size 2 on the three-record witness catalog,
following the cursor from offset 0 reproduces the full ordered list, and
the first response's cursor is 2. -/
theorem pagination_exhaustive_witness :
    (Smoothies.collectPages wCatalog wOptsPage 4 0 =
      (Smoothies.sortedDecorated wCatalog wOptsPage).map
        (fun p => Smoothies.toListItem p.1 p.2)) ∧
    (Smoothies.querySmoothies wCatalog
        (Smoothies.setOffset wOptsPage 0)).nextOffset =
      (if 0 + (Smoothies.querySmoothies wCatalog
          (Smoothies.setOffset wOptsPage 0)).items.length <
          (Smoothies.querySmoothies wCatalog
            (Smoothies.setOffset wOptsPage 0)).total
      then some (0 + (Smoothies.querySmoothies wCatalog
          (Smoothies.setOffset wOptsPage 0)).items.length)
      else none) :=
  ⟨pagination_exhaustive.1 wCatalog wOptsPage 4 (by decide),
   pagination_exhaustive.2.2 wCatalog wOptsPage 0⟩

theorem bumpCount_zero (x : Option Nat) : bumpCount x 0 = x := by
  cases x <;> simp [bumpCount]

theorem bumpCount_one_add (x : Option Nat) (k : Nat) :
    bumpCount (bumpCount x 1) k = bumpCount x (k + 1) := by
  cases x with
  | some c => simp [bumpCount]; omega
  | none =>
    simp [bumpCount]
    omega

theorem freqCount_freqBump (m : List (JStr × JStr × Nat)) (s ing slug : JStr) :
    freqCount (Smoothies.freqBump m s ing) slug =
      (if s = slug then bumpCount (freqCount m slug) 1
       else freqCount m slug) := by
  simp only [Smoothies.freqBump]
  split
  · rename_i hsome
    have hmap : (m.map (fun e => if e.1 = s then (e.1, e.2.1, e.2.2 + 1) else e)).find?
        (fun e => e.1 = slug) =
        (m.find? (fun e => e.1 = slug)).map
          (fun e => if e.1 = s then (e.1, e.2.1, e.2.2 + 1) else e) := by
      rw [List.find?_map]
      have hfg : ((fun e => decide (e.1 = slug)) ∘
          (fun (e : JStr × JStr × Nat) =>
            if e.1 = s then (e.1, e.2.1, e.2.2 + 1) else e)) =
          (fun e => decide (e.1 = slug)) := by
        funext e
        by_cases he : e.1 = s <;> simp [he]
      rw [hfg]
    simp only [freqCount, Smoothies.freqGet, hmap]
    cases hfind : m.find? (fun e => e.1 = slug) with
    | none =>
      by_cases hs : s = slug
      · subst hs
        rw [hfind] at hsome
        exact absurd hsome (by simp)
      · simp [hs, bumpCount]
    | some e =>
      have he1 : e.1 = slug := by
        have := List.find?_some hfind
        simpa using this
      by_cases hs : s = slug
      · subst hs
        simp [he1, bumpCount]
      · have : ¬ e.1 = s := by rw [he1]; exact fun h => hs h.symm
        simp [this, hs, bumpCount]
  · rename_i hnone
    have hmnone : m.find? (fun e => e.1 = slug) = none ∨ ¬ s = slug := by
      by_cases hs : s = slug
      · left
        rw [← hs]
        cases hfind : m.find? (fun e => decide (e.1 = s)) with
        | none => rfl
        | some e => exact absurd (by rw [hfind]; simp) hnone
      · exact Or.inr hs
    simp only [freqCount, Smoothies.freqGet, List.find?_append]
    rcases hmnone with hm | hs
    · rw [hm]
      by_cases hs : s = slug
      · subst hs
        simp [bumpCount, hm]
      · simp [hs, bumpCount, hm]
    · have hfe : ([(s, ing, 1)].find? (fun e => e.1 = slug)) = none := by
        simp [hs]
      cases hfind : m.find? (fun e => e.1 = slug) with
      | none => simp [hfe, hs, hfind, bumpCount]
      | some e => simp [hfe, hs, hfind, bumpCount]

theorem freqAdd_eq (m : List (JStr × JStr × Nat)) (ing : JStr) :
    Smoothies.freqAddIngredient m ing =
      (if slugEligible (Smoothies.slugify ing) = true then
        Smoothies.freqBump m (Smoothies.slugify ing) ing
      else m) := by
  by_cases h : (decide (Smoothies.slugify ing = []) ||
      Smoothies.STOP_INGREDIENTS.contains (Smoothies.slugify ing) ||
      decide ((Smoothies.slugify ing).length < 2)) = true
  · have hel : slugEligible (Smoothies.slugify ing) = false := by
      simp only [slugEligible, h, Bool.not_true]
    rw [hel]
    simp only [Smoothies.freqAddIngredient, h, if_true, Bool.false_eq_true,
      if_false]
  · have hel : slugEligible (Smoothies.slugify ing) = true := by
      simp only [slugEligible, Bool.not_eq_true', ← Bool.not_eq_true, h,
        not_false_iff]
    rw [hel]
    simp only [Smoothies.freqAddIngredient]
    rw [if_neg h, if_pos trivial]

theorem bumpCount_add (x : Option Nat) (a b : Nat) :
    bumpCount (bumpCount x a) b = bumpCount x (a + b) := by
  cases x with
  | some c => simp [bumpCount]; omega
  | none =>
    by_cases ha : 0 < a
    · simp only [bumpCount, if_pos ha, if_pos (by omega : 0 < a + b)]
    · have ha0 : a = 0 := by omega
      subst ha0
      simp [bumpCount]

set_option maxHeartbeats 1600000 in
theorem freqCount_foldIngredients (slug : JStr) :
    ∀ (ings : List JStr) (m : List (JStr × JStr × Nat)),
      freqCount (ings.foldl Smoothies.freqAddIngredient m) slug =
        (if slugEligible slug = true then
          bumpCount (freqCount m slug)
            (ings.countP (fun ing => decide (Smoothies.slugify ing = slug)))
        else freqCount m slug) := by
  intro ings
  induction ings with
  | nil =>
    intro m
    simp [bumpCount_zero]
  | cons ing rest ih =>
    intro m
    rw [List.foldl_cons, ih (Smoothies.freqAddIngredient m ing), freqAdd_eq,
      List.countP_cons]
    by_cases hslug : Smoothies.slugify ing = slug
    · rw [hslug]
      have hone : (if decide (slug = slug) = true then (1 : Nat) else 0) = 1 := by
        simp
      rw [hone]
      by_cases hel : slugEligible slug = true
      · rw [if_pos hel, if_pos hel, if_pos hel, freqCount_freqBump, if_pos rfl,
          bumpCount_one_add]
      · rw [if_neg hel, if_neg hel, if_neg hel]
    · have hcnt : (if decide (Smoothies.slugify ing = slug) = true then 1 else 0) = 0 := by
        simp [hslug]
      rw [hcnt, Nat.add_zero]
      by_cases hel2 : slugEligible (Smoothies.slugify ing) = true
      · rw [if_pos hel2, freqCount_freqBump, if_neg hslug]
      · rw [if_neg hel2]

theorem freqCount_ingredientFreqOf (slug : JStr) :
    ∀ (items : List Smoothies.SmoothieRecordInternal)
      (m : List (JStr × JStr × Nat)),
      freqCount (items.foldl
        (fun acc r => r.ingredients.foldl Smoothies.freqAddIngredient acc) m)
        slug =
        (if slugEligible slug = true then
          bumpCount (freqCount m slug) (specGlobalFrequency items slug)
        else freqCount m slug) := by
  intro items
  induction items with
  | nil =>
    intro m
    simp [specGlobalFrequency, bumpCount_zero]
  | cons r rest ih =>
    intro m
    rw [List.foldl_cons, ih, freqCount_foldIngredients]
    have hspec : specGlobalFrequency (r :: rest) slug =
        r.ingredients.countP (fun ing => decide (Smoothies.slugify ing = slug)) +
          specGlobalFrequency rest slug := by
      simp [specGlobalFrequency]
    by_cases hel : slugEligible slug = true
    · rw [if_pos hel, if_pos hel, if_pos hel, bumpCount_add, hspec]
    · rw [if_neg hel, if_neg hel, if_neg hel]

theorem foldIngr_assign (m : List (JStr × JStr × Nat)) :
    ∀ (items : List Smoothies.SmoothieRecordInternal)
      (acc : List (JStr × JStr × Nat)),
      ((items.map (fun r => { r with popularityScore := Smoothies.scoreOf m r })).foldl
          (fun a recipe => recipe.ingredients.foldl Smoothies.freqAddIngredient a) acc) =
        items.foldl
          (fun a recipe => recipe.ingredients.foldl Smoothies.freqAddIngredient a) acc := by
  intro items
  induction items with
  | nil => intro acc; rfl
  | cons r rest ih =>
    intro acc
    rw [List.map_cons, List.foldl_cons, List.foldl_cons]
    exact ih _

theorem ingredientFreqOf_assignScores (m : List (JStr × JStr × Nat))
    (items : List Smoothies.SmoothieRecordInternal) :
    Smoothies.ingredientFreqOf (Smoothies.assignScores m items) =
      Smoothies.ingredientFreqOf items := by
  simp only [Smoothies.ingredientFreqOf, Smoothies.assignScores]
  exact foldIngr_assign m items []

theorem scoreOf_set_pop (m : List (JStr × JStr × Nat))
    (r : Smoothies.SmoothieRecordInternal) (x : Nat) :
    Smoothies.scoreOf m { r with popularityScore := x } =
      Smoothies.scoreOf m r := rfl

theorem foldl_score_eq_sum (G : JStr → Option (JStr × Nat)) :
    ∀ (l : List JStr) (s : Nat),
      l.foldl (fun score ing =>
        match G ing with
        | some meta => score + min meta.2 400
        | none => score) s =
      s + (l.map (fun ing =>
        match G ing with
        | some meta => min meta.2 400
        | none => 0)).sum := by
  intro l
  induction l with
  | nil => intro s; simp
  | cons ing rest ih =>
    intro s
    rw [List.foldl_cons, List.map_cons, List.sum_cons, ih]
    cases G ing with
    | some meta =>
      dsimp only
      rw [Nat.add_assoc]
    | none =>
      dsimp only
      rw [Nat.zero_add]

theorem scoreOf_eq_spec (m : List (JStr × JStr × Nat))
    (r : Smoothies.SmoothieRecordInternal) :
    Smoothies.scoreOf m r = specPopularityScore m r := by
  simp only [Smoothies.scoreOf, specPopularityScore,
    foldl_score_eq_sum (fun ing => Smoothies.freqGet m (Smoothies.slugify ing)),
    Nat.zero_add]

theorem specGlobalFrequency_assignScores (m : List (JStr × JStr × Nat))
    (items : List Smoothies.SmoothieRecordInternal) (slug : JStr) :
    specGlobalFrequency (Smoothies.assignScores m items) slug =
      specGlobalFrequency items slug := by
  simp only [specGlobalFrequency, Smoothies.assignScores, List.map_map]
  rfl

theorem matchMin_freq (items : List Smoothies.SmoothieRecordInternal)
    (slug : JStr) :
    capFreq (Smoothies.freqGet (Smoothies.ingredientFreqOf items) slug) =
      (if slugEligible slug = true then
        min (specGlobalFrequency items slug) 400 else 0) := by
  have hfc : freqCount (Smoothies.ingredientFreqOf items) slug =
      (if slugEligible slug = true then
        bumpCount none (specGlobalFrequency items slug) else none) :=
    freqCount_ingredientFreqOf slug items []
  cases hG : Smoothies.freqGet (Smoothies.ingredientFreqOf items) slug with
  | none =>
    simp only [freqCount, hG, Option.map] at hfc
    simp only [capFreq]
    by_cases hel : slugEligible slug = true
    · rw [if_pos hel] at hfc
      rw [if_pos hel]
      simp only [bumpCount] at hfc
      by_cases hk : 0 < specGlobalFrequency items slug
      · rw [if_pos hk] at hfc
        exact absurd hfc (by simp)
      · have hk0 : specGlobalFrequency items slug = 0 := by omega
        rw [hk0]
        simp
    · rw [if_neg hel]
  | some meta =>
    simp only [freqCount, hG, Option.map] at hfc
    simp only [capFreq]
    by_cases hel : slugEligible slug = true
    · rw [if_pos hel] at hfc
      rw [if_pos hel]
      simp only [bumpCount] at hfc
      by_cases hk : 0 < specGlobalFrequency items slug
      · rw [if_pos hk] at hfc
        rw [Option.some.inj hfc]
      · rw [if_neg hk] at hfc
        exact absurd hfc (by simp)
    · rw [if_neg hel] at hfc
      exact absurd hfc (by simp)

theorem specPop_eq_catalog (items : List Smoothies.SmoothieRecordInternal)
    (r : Smoothies.SmoothieRecordInternal) :
    specPopularityScore (Smoothies.ingredientFreqOf items) r =
      specCatalogScore items r := by
  simp only [specPopularityScore, specCatalogScore]
  refine congrArg (fun s => s
      + (if r.tags.vegan then 40 else 0)
      + (if !r.tags.lactose then 25 else 0)
      + (if r.hasImage then 10 else 0)) ?_
  refine congrArg List.sum ?_
  refine List.map_congr_left ?_
  intro ing _
  have h := matchMin_freq items (Smoothies.slugify ing)
  cases hG : Smoothies.freqGet (Smoothies.ingredientFreqOf items)
      (Smoothies.slugify ing) with
  | none =>
    rw [hG] at h
    simp only [capFreq] at h
    exact h
  | some meta =>
    rw [hG] at h
    simp only [capFreq] at h
    exact h

theorem popScore_in_catalog (items : List Smoothies.SmoothieRecordInternal)
    (r : Smoothies.SmoothieRecordInternal)
    (h : r ∈ Smoothies.assignScores (Smoothies.ingredientFreqOf items) items) :
    r.popularityScore =
      specCatalogScore
        (Smoothies.assignScores (Smoothies.ingredientFreqOf items) items) r := by
  rcases mem_assignScores _ _ _ h with ⟨r0, hr0, he⟩
  have hcat : specCatalogScore
      (Smoothies.assignScores (Smoothies.ingredientFreqOf items) items) r =
      specCatalogScore items r := by
    simp only [specCatalogScore, specGlobalFrequency_assignScores]
  rw [hcat, he]
  show Smoothies.scoreOf (Smoothies.ingredientFreqOf items) r0 =
    specCatalogScore items
      { r0 with popularityScore :=
          Smoothies.scoreOf (Smoothies.ingredientFreqOf items) r0 }
  have hcat2 : specCatalogScore items
      { r0 with popularityScore :=
          Smoothies.scoreOf (Smoothies.ingredientFreqOf items) r0 } =
      specCatalogScore items r0 := rfl
  rw [hcat2, scoreOf_eq_spec, specPop_eq_catalog]

/-- Claim C5: every record of a built catalog has
`popularityScore = Σ over its ingredient tokens of
min(globalFrequency[slugify(ingredient)], 400) + 40·vegan +
25·(¬lactose) + 10·hasImage`, where the global frequency counts
ingredient-slug occurrences across all records and a stop-listed or
shorter-than-two-characters slug is skipped (contributing 0); the score
is a natural number computed once from the CSV text alone. -/
theorem popularity_score_formula (csv : JStr)
    (r : Smoothies.SmoothieRecordInternal)
    (h : r ∈ Smoothies.loadDataset csv) :
    r.popularityScore = specCatalogScore (Smoothies.loadDataset csv) r := by
  simp only [Smoothies.loadDataset] at h ⊢
  by_cases hlen : (Smoothies.parseCsvRows csv).length < 2
  · rw [if_pos hlen] at h
    exact absurd h (List.not_mem_nil r)
  · rw [if_neg hlen] at h ⊢
    exact popScore_in_catalog _ r h

/-- Witness for C5: the first record of the witness catalog realises the
popularity-score formula. -/
theorem popularity_score_formula_witness :
    wRec5 ∈ Smoothies.loadDataset wCsv ∧
    wRec5.popularityScore = specCatalogScore (Smoothies.loadDataset wCsv) wRec5 :=
  ⟨by decide, popularity_score_formula wCsv wRec5 (by decide)⟩
